import Mathlib

/-!
Verification of the ipc_uds transport core: a shallow embedding of the
frame codec (ByteBuffer), the server frame parser (UDSServer), the
handler registry (ServiceManager), the client RPC channel (Channel)
and the calculator service, with theorems settling the specification
claims against them.

Bytes are modelled as natural numbers kept below 256 by construction;
buffers are fixed-length lists of bytes with an explicit cursor, and
the C++ exception discipline (state mutations persist across a throw)
is modelled by a state-and-exception monad whose state survives errors.
-/

namespace IpcUds

/-- Errors raised by the ByteBuffer operations, mirroring the C++
exception types thrown by the codec. -/
inductive BBError where
  | overflow
  | underflow
  | invalidArgument
  | outOfRange
  deriving DecidableEq, Repr

/-- The ByteBuffer state: a fixed-capacity byte region (the list never
changes length) and the current cursor.  Mirrors the fields buffer_,
length_ and position_ of the C++ class; length_ is data.length. -/
structure ByteBuffer where
  data : List Nat
  position : Nat
  deriving DecidableEq, Repr

/-- The codec monad: state passing with exceptions, where the state at
the moment of the throw is preserved (as with C++ exceptions unwinding
out of a sequence of mutations). -/
def BBM (α : Type) : Type := ByteBuffer → Except BBError α × ByteBuffer

instance : Monad BBM where
  pure a := fun s => (Except.ok a, s)
  bind x f := fun s =>
    match x s with
    | (Except.ok a, s₁) => f a s₁
    | (Except.error e, s₁) => (Except.error e, s₁)

/-- Raise a codec error, leaving the buffer state as it stands. -/
def bbThrow {α : Type} (e : BBError) : BBM α := fun s => (Except.error e, s)

/-- Overwrite the bytes of l at positions pos, pos+1, ... with bs
(the memcpy of WriteBytes). -/
def listWrite (l : List Nat) (pos : Nat) (bs : List Nat) : List Nat :=
  l.take pos ++ bs ++ l.drop (pos + bs.length)

/-- Big-endian byte encoding of width w: most significant byte first,
value taken modulo 256 to the w.  This is what htonl/htons produce. -/
def beBytes : Nat → Nat → List Nat
  | 0, _ => []
  | w + 1, n => beBytes w (n / 256) ++ [n % 256]

/-- Big-endian byte decoding, the inverse of beBytes (ntohl/ntohs). -/
def beDecode : List Nat → Nat
  | [] => 0
  | b :: rest => b * 256 ^ rest.length + beDecode rest

/-- Little-endian byte encoding of width w: least significant byte
first.  This is the x86 native in-memory layout used for floats and
doubles, which the codec memcpys without normalisation. -/
def leBytes : Nat → Nat → List Nat
  | 0, _ => []
  | w + 1, n => n % 256 :: leBytes w (n / 256)

/-- Little-endian byte decoding, the inverse of leBytes. -/
def leDecode : List Nat → Nat
  | [] => 0
  | b :: rest => b + 256 * leDecode rest

namespace ByteBuffer

/-- ByteBuffer::CheckBoundary: position_ + size <= length_. -/
def CheckBoundary (size : Nat) (s : ByteBuffer) : Bool :=
  s.position + size ≤ s.data.length

/-- ByteBuffer::WriteBytes: bounds check, memcpy at the cursor, advance
the cursor; throws overflow when the write would exceed the region. -/
def WriteBytes (bs : List Nat) : BBM Unit := fun s =>
  if s.position + bs.length ≤ s.data.length then
    (Except.ok (), ⟨listWrite s.data s.position bs, s.position + bs.length⟩)
  else
    (Except.error BBError.overflow, s)

/-- ByteBuffer::ReadBytes: bounds check, copy out from the cursor,
advance the cursor; throws underflow when too few bytes remain. -/
def ReadBytes (size : Nat) : BBM (List Nat) := fun s =>
  if s.position + size ≤ s.data.length then
    (Except.ok ((s.data.drop s.position).take size), ⟨s.data, s.position + size⟩)
  else
    (Except.error BBError.underflow, s)

/-- ByteBuffer::PutByte: one byte (the uint8_t argument is the value
modulo 256). -/
def PutByte (b : Nat) : BBM Unit :=
  WriteBytes [b % 256]

/-- ByteBuffer::PutShort: htons then a single 2-byte write. -/
def PutShort (n : Nat) : BBM Unit :=
  WriteBytes (beBytes 2 n)

/-- ByteBuffer::PutInt: htonl then a single 4-byte write. -/
def PutInt (n : Nat) : BBM Unit :=
  WriteBytes (beBytes 4 n)

/-- ByteBuffer::PutLong: the 64-bit twos-complement pattern is split
into a high and a low 32-bit half, each written by its own WriteBytes
call (so a failure of the second write leaves the first in place). -/
def PutLong (n : Nat) : BBM Unit := do
  WriteBytes (beBytes 4 (n / 2 ^ 32))
  WriteBytes (beBytes 4 n)

/-- ByteBuffer::PutFloat: the 32-bit pattern in native (little-endian)
layout, one write. -/
def PutFloat (bits : Nat) : BBM Unit :=
  WriteBytes (leBytes 4 bits)

/-- ByteBuffer::PutDouble: the 64-bit pattern in native (little-endian)
layout, one write. -/
def PutDouble (bits : Nat) : BBM Unit :=
  WriteBytes (leBytes 8 bits)

/-- ByteBuffer::PutString: a 4-byte length prefix, then the string
bytes when nonempty — two separate writes. -/
def PutString (str : List Nat) : BBM Unit := do
  PutInt str.length
  if str.length > 0 then
    WriteBytes (str.map (· % 256))
  else
    pure ()

/-- ByteBuffer::PutArray: a 4-byte length prefix, then the bytes when
len > 0; a null data pointer with len > 0 throws invalid_argument after
the prefix was already written. -/
def PutArray (arr : Option (List Nat)) (len : Nat) : BBM Unit := do
  PutInt len
  if len > 0 then
    match arr with
    | none => bbThrow BBError.invalidArgument
    | some bs => WriteBytes ((bs.take len).map (· % 256))
  else
    pure ()

/-- Write one key/value pair list in order (the loop body of PutMap). -/
def PutPairs : List (List Nat × List Nat) → BBM Unit
  | [] => pure ()
  | (k, v) :: rest => do
      PutString k
      PutString v
      PutPairs rest

/-- ByteBuffer::PutMap: a 4-byte count, then each key and value as a
length-prefixed string, in the order the container yields them. -/
def PutMap (m : List (List Nat × List Nat)) : BBM Unit := do
  PutInt m.length
  PutPairs m

/-- ByteBuffer::GetByte. -/
def GetByte : BBM Nat := do
  let bs ← ReadBytes 1
  pure (bs.headD 0)

/-- ByteBuffer::GetShort: one 2-byte read, then ntohs. -/
def GetShort : BBM Nat := do
  let bs ← ReadBytes 2
  pure (beDecode bs)

/-- ByteBuffer::GetInt: one 4-byte read, then ntohl. -/
def GetInt : BBM Nat := do
  let bs ← ReadBytes 4
  pure (beDecode bs)

/-- ByteBuffer::GetLong: two 4-byte reads (high then low), recombined
as (int64)high << 32 | low. -/
def GetLong : BBM Nat := do
  let hi ← ReadBytes 4
  let lo ← ReadBytes 4
  pure (beDecode hi * 2 ^ 32 + beDecode lo)

/-- ByteBuffer::GetFloat: one 4-byte read of the native pattern. -/
def GetFloat : BBM Nat := do
  let bs ← ReadBytes 4
  pure (leDecode bs)

/-- ByteBuffer::GetDouble: one 8-byte read of the native pattern. -/
def GetDouble : BBM Nat := do
  let bs ← ReadBytes 8
  pure (leDecode bs)

/-- ByteBuffer::GetString: read the length prefix; an empty string
returns at once; otherwise a boundary check (underflow on failure) and
the string bytes are copied out and the cursor advanced — the same
read-and-advance ReadBytes performs. -/
def GetString : BBM (List Nat) := do
  let len ← GetInt
  if len = 0 then
    pure []
  else
    ReadBytes len

/-- ByteBuffer::GetArray: read the length prefix; a length exceeding
the destination capacity throws overflow before any payload read;
otherwise the bytes are read (underflow if too few remain). -/
def GetArray (maxLen : Nat) : BBM (List Nat) := do
  let len ← GetInt
  if len > maxLen then
    bbThrow BBError.overflow
  else if len > 0 then
    ReadBytes len
  else
    pure []

/-- Read count key/value pairs (the loop body of GetMap); the C++
accumulates them into an unordered_map, here they are returned in read
order. -/
def GetPairs : Nat → BBM (List (List Nat × List Nat))
  | 0 => pure []
  | n + 1 => do
      let k ← GetString
      let v ← GetString
      let rest ← GetPairs n
      pure ((k, v) :: rest)

/-- ByteBuffer::GetMap: read the 4-byte count, then that many pairs. -/
def GetMap : BBM (List (List Nat × List Nat)) := do
  let c ← GetInt
  GetPairs c

/-- ByteBuffer::Position. -/
def Position : BBM Nat := fun s => (Except.ok s.position, s)

/-- ByteBuffer::SetPosition: out_of_range past the end of the region. -/
def SetPosition (p : Nat) : BBM Unit := fun s =>
  if p ≤ s.data.length then (Except.ok (), ⟨s.data, p⟩)
  else (Except.error BBError.outOfRange, s)

/-- ByteBuffer::Reset: cursor back to zero. -/
def Reset : BBM Unit := fun s => (Except.ok (), ⟨s.data, 0⟩)

/-- The wire encoding PutString produces: a 4-byte big-endian length
prefix followed by the string bytes. -/
def strEncode (str : List Nat) : List Nat :=
  beBytes 4 str.length ++ str.map (· % 256)

/-- The wire encoding PutPairs produces for a list of key/value pairs. -/
def pairsEncode : List (List Nat × List Nat) → List Nat
  | [] => []
  | (k, v) :: rest => strEncode k ++ strEncode v ++ pairsEncode rest

/-- The wire encoding PutMap produces: a 4-byte big-endian count then
the pairs. -/
def mapEncode (m : List (List Nat × List Nat)) : List Nat :=
  beBytes 4 m.length ++ pairsEncode m

/-- Well-formedness of a key/value pair list: every byte is a byte and
every length fits the 32-bit prefix. -/
def mapWF (m : List (List Nat × List Nat)) : Prop :=
  ∀ kv ∈ m, (∀ b ∈ kv.1, b < 256) ∧ kv.1.length < 2 ^ 32 ∧
    (∀ b ∈ kv.2, b < 256) ∧ kv.2.length < 2 ^ 32

/-! Boundary-behavior predicates: a codec operation never grows the
region and never leaves the cursor past its end, never mutates the
region (for reads), and can only fail with a given class of errors. -/

/-- The operation preserves the region size and keeps the cursor
within the region, whether it succeeds or throws. -/
def Bounded {α : Type} (m : BBM α) : Prop :=
  ∀ s : ByteBuffer, s.position ≤ s.data.length →
    (m s).2.data.length = s.data.length ∧ (m s).2.position ≤ (m s).2.data.length

/-- The operation never modifies the bytes of the region. -/
def ReadOnly {α : Type} (m : BBM α) : Prop :=
  ∀ s : ByteBuffer, (m s).2.data = s.data

/-- Every error the operation can throw satisfies P. -/
def FailsIn {α : Type} (m : BBM α) (P : BBError → Prop) : Prop :=
  ∀ (s : ByteBuffer) (e : BBError), (m s).1 = Except.error e → P e

end ByteBuffer

/-! Protocol constants (Protocol.hpp). -/

namespace Protocol

def START_BYTE : Nat := 0x7E
def END_BYTE : Nat := 0x7F
def VERSION : Nat := 0x01
def MAX_PACKET_SIZE : Nat := 8 * 1024
def MIN_PACKET_SIZE : Nat := 11

/-- Protocol::GetMinFrameSize: START(1) + LENGTH(4) + ROUTINE_ID(4) +
VERSION(1) + END(1). -/
def GetMinFrameSize : Nat := 11

end Protocol

/-! Server frame parsing: UDSServer::ProcessClientRequest.  The
function returns the routine id and the payload span handed to
ServiceManager::ExecuteService, or none when the request is discarded
(the C++ returns 0 and sends nothing).  The parse mirrors the source
statement by statement: minimum-size check, GetByte for START,
GetInt for TOTAL_LENGTH (read into frame_len and then discarded
unused), GetInt for the routine id, GetByte for VERSION, version
check, then payload_start = Position and
payload_len = len - payload_start - 1 (excluding the END byte). -/

open ByteBuffer in
/-- UDSServer::ProcessClientRequest reduced to its dispatch decision:
some (routine id, payload span) when the frame is accepted and handed
to the registry, none when the data is discarded with no response. -/
def ProcessClientRequest (data : List Nat) : Option (Nat × List Nat) :=
  if data.length < Protocol.GetMinFrameSize then none
  else
    match GetByte ⟨data, 0⟩ with
    | (Except.error _, _) => none
    | (Except.ok start, s₁) =>
      if start ≠ Protocol.START_BYTE then none
      else
        match GetInt s₁ with
        | (Except.error _, _) => none
        | (Except.ok _frameLen, s₂) =>
          match GetInt s₂ with
          | (Except.error _, _) => none
          | (Except.ok routineId, s₃) =>
            match GetByte s₃ with
            | (Except.error _, _) => none
            | (Except.ok version, s₄) =>
              if version ≠ Protocol.VERSION then none
              else
                some (routineId,
                  (data.drop s₄.position).take (data.length - s₄.position - 1))

/-- UDSServer::HandleClientData after a successful recv of a nonempty
byte chunk: the request is processed (response, if any, sent inside)
and the function returns true — the connection is kept alive no matter
what the parse or dispatch decided. -/
def HandleClientData (data : List Nat) : Bool × Option (Nat × List Nat) :=
  (true, ProcessClientRequest data)

/-! Handler registry: ServiceManager. -/

/-- A registered service: its request routine id and its Execute body,
which may produce response bytes or raise. -/
structure Service where
  requestId : Nat
  execute : List Nat → Except Unit (List Nat)

/-- The registry: the std map from routine id to service, as an
association list. -/
abbrev Registry : Type := List (Nat × Service)

/-- services_.find(routine_id). -/
def regFind (reg : Registry) (routineId : Nat) : Option Service :=
  match reg with
  | [] => none
  | (id, svc) :: rest => if id = routineId then some svc else regFind rest routineId

/-- ServiceManager::RegisterService: a null service is rejected; a
routine id already present is rejected leaving the registry unchanged
(first registration wins); otherwise the mapping is added and true
returned.  The function is total: no case raises. -/
def RegisterService (reg : Registry) (service : Option Service) : Bool × Registry :=
  match service with
  | none => (false, reg)
  | some svc =>
    if (regFind reg svc.requestId).isSome then
      (false, reg)
    else
      (true, reg ++ [(svc.requestId, svc)])

/-- Events of one ExecuteService call, used to express where the lock
is held.  The C++ takes the lock in an inner scope that closes after
the lookup, and calls Execute outside it. -/
inductive RegEvent where
  | lockAcquire
  | lookup
  | lockRelease
  | execute
  deriving DecidableEq, Repr

/-- ServiceManager::ExecuteService with its event trace: under the
lock, find the service (returning 0 when absent); after the lock scope
closes, invoke Execute, returning 0 if it throws, its byte count
otherwise. -/
def ExecuteServiceT (reg : Registry) (routineId : Nat) (input : List Nat) :
    Nat × List RegEvent :=
  match regFind reg routineId with
  | none => (0, [RegEvent.lockAcquire, RegEvent.lookup, RegEvent.lockRelease])
  | some svc =>
    match svc.execute input with
    | Except.error _ =>
        (0, [RegEvent.lockAcquire, RegEvent.lookup, RegEvent.lockRelease,
          RegEvent.execute])
    | Except.ok out =>
        (out.length, [RegEvent.lockAcquire, RegEvent.lookup, RegEvent.lockRelease,
          RegEvent.execute])

/-- ServiceManager::ExecuteService return value (bytes written). -/
def ExecuteService (reg : Registry) (routineId : Nat) (input : List Nat) : Nat :=
  (ExecuteServiceT reg routineId input).1

/-! Client channel: Channel::Impl (part of the shared library). -/

/-- Channel state relevant to disconnect/idempotence: the socket
descriptor (none models fd -1) and the connected flag. -/
structure ChannelState where
  socketFd : Option Nat
  connected : Bool
  deriving DecidableEq, Repr

/-- Channel::Impl::Disconnect, with a flag reporting whether close()
was invoked: when a descriptor exists it is closed and cleared, and in
every case connected_ is set false.  The function cannot fail. -/
def Disconnect (st : ChannelState) : ChannelState × Bool :=
  match st.socketFd with
  | some _ => (⟨none, false⟩, true)
  | none => (⟨none, false⟩, false)

/-- UDSServer run-state relevant to Stop. -/
structure ServerRunState where
  running : Bool
  deriving DecidableEq, Repr

/-- UDSServer::Stop, with a flag reporting whether the stop sequence
(store false, join) ran: when not running it returns at once. -/
def Stop (st : ServerRunState) : ServerRunState × Bool :=
  if st.running then (⟨false⟩, true) else (st, false)

/-- The scratch buffer of Channel::Impl: buffer_ is resized to
Protocol::MAX_PACKET_SIZE at construction (zero-initialised). -/
def channelScratch : List Nat := List.replicate Protocol.MAX_PACKET_SIZE 0

/-- The final step of the ExecuteRPC encoder: the frame bytes handed
to SendData are buffer_[0..frame_len); a codec error aborts the call. -/
def chanStage3 : Except BBError Nat × ByteBuffer → Option (List Nat)
  | (Except.error _, _) => none
  | (Except.ok flen, s₃) => some (s₃.data.take flen)

open ByteBuffer in
/-- The ExecuteRPC encoder after the header: the payload memcpy
guarded by pos + request_len >= buffer size (an error, none here, when
too large); then the END byte, cursor read, rewind to offset 1, and
the TOTAL_LENGTH patch. -/
def chanStage2 (payload : List Nat) : Except BBError Nat × ByteBuffer → Option (List Nat)
  | (Except.error _, _) => none
  | (Except.ok pos, s₁) =>
    if payload.length > 0 ∧ pos + payload.length ≥ Protocol.MAX_PACKET_SIZE then
      none
    else
      let s₂ : ByteBuffer :=
        if payload.length > 0 then
          ⟨listWrite s₁.data pos payload, pos + payload.length⟩
        else s₁
      chanStage3 ((do PutByte Protocol.END_BYTE
                      let flen ← Position
                      SetPosition 1
                      PutInt flen
                      pure flen : BBM Nat) s₂)

open ByteBuffer in
/-- The frame-encoding portion of Channel::Impl::ExecuteRPC: START,
placeholder length, routine id, VERSION; then the payload memcpy
guarded by pos + request_len >= buffer size (returning an error, none
here, when too large); then END; then rewind to offset 1 and patch the
true frame length.  Returns the frame bytes handed to SendData
(buffer_[0..frame_len)), or none when the call aborts. -/
def ChannelBuildFrame (routineId : Nat) (payload : List Nat) : Option (List Nat) :=
  chanStage2 payload
    ((do PutByte Protocol.START_BYTE
         PutInt 0
         PutInt routineId
         PutByte Protocol.VERSION
         Position : BBM Nat) ⟨channelScratch, 0⟩)

/-- The header Channel::Impl::ExecuteRPC writes before the payload:
START, placeholder length, routine id, VERSION. -/
def chanHdr (routineId : Nat) : List Nat :=
  [Protocol.START_BYTE] ++ beBytes 4 0 ++ beBytes 4 routineId ++ [Protocol.VERSION]

/-- A complete frame as laid out by the codec: START, TOTAL_LENGTH,
ROUTINE_ID, VERSION, payload, END. -/
def chanFrame (routineId flen : Nat) (payload : List Nat) : List Nat :=
  [Protocol.START_BYTE] ++ beBytes 4 flen ++ beBytes 4 routineId ++
    [Protocol.VERSION] ++ payload ++ [Protocol.END_BYTE]

/-- Channel::Impl::ExecuteRPC from after EnsureConnected up to the
first SendData call: the returned triple is (call result so far,
channel state, whether socket I/O was reached).  The too-large early
return leaves the state untouched and never reaches SendData. -/
def rpcSendGate (st : ChannelState) : Option (List Nat) → Bool × ChannelState × Bool
  | none => (false, st, false)
  | some _ => (true, st, true)

def ExecuteRPCUpToSend (st : ChannelState) (routineId : Nat) (payload : List Nat) :
    Bool × ChannelState × Bool :=
  rpcSendGate st (ChannelBuildFrame routineId payload)

/-! Calculator service and its typed client proxy.  The double
operands and results are modelled as exact rationals: every finite
IEEE-754 double is an exact rational, the comparison against the
1e-10 literal decides identically on exact values for every double
input (no double value separates the literal from 10^-10), and the
claims under test concern the branch structure and the zero result,
not rounding. -/

/-- CalculatorService status bytes (Success 0x00, DivisionByZero 0x01,
InvalidOperation 0x02, as pinned by the unit tests). -/
def statusSuccess : Nat := 0x00

def statusDivisionByZero : Nat := 0x01

def statusInvalidOperation : Nat := 0x02

/-- ASCII bytes of the string Division by zero. -/
def msgDivisionByZero : List Nat :=
  [68, 105, 118, 105, 115, 105, 111, 110, 32, 98, 121, 32, 122, 101, 114, 111]

/-- ASCII bytes of the string Invalid operation code. -/
def msgInvalidOperation : List Nat :=
  [73, 110, 118, 97, 108, 105, 100, 32, 111, 112, 101, 114, 97, 116, 105, 111,
   110, 32, 99, 111, 100, 101]

/-- ASCII bytes of the string zero. -/
def zeroBytes : List Nat := [122, 101, 114, 111]

/-- CalculatorService::ExecuteOperation: returns (status byte, result,
error message bytes).  Operation codes: Add 0x01, Subtract 0x02,
Multiply 0x03, Divide 0x04; the Divide case guards on
std::abs(b) < 1e-10. -/
def CalcExecuteOperation (op : Nat) (a b : ℚ) : Nat × ℚ × List Nat :=
  match op with
  | 1 => (statusSuccess, a + b, [])
  | 2 => (statusSuccess, a - b, [])
  | 3 => (statusSuccess, a * b, [])
  | 4 =>
    if |b| < 1 / 10 ^ 10 then
      (statusDivisionByZero, 0, msgDivisionByZero)
    else
      (statusSuccess, a / b, [])
  | _ => (statusInvalidOperation, 0, msgInvalidOperation)

/-- The calculator response routine id (request 0x1000, response
0x1001). -/
def calcResponseRoutineId : Nat := 0x1001

/-- The final step of the response builder: Execute returns the bytes
output[0..total_len); a codec exception lands in the catch block
(none here). -/
def calcStage2 : Except BBError Nat × ByteBuffer → Option (List Nat)
  | (Except.error _, _) => none
  | (Except.ok total, s) => some (s.data.take total)

open ByteBuffer in
/-- The response-frame construction of CalculatorService::Execute:
START, placeholder length, response routine id, VERSION, status byte,
result double, error string, END; then rewind to offset 1 and patch
the total length.  Returns the response bytes (output[0..total_len)),
or none when a codec exception escapes to the catch block. -/
def BuildCalcResponse (status resultBits : Nat) (error : List Nat)
    (outCap : Nat) : Option (List Nat) :=
  calcStage2
    ((do PutByte Protocol.START_BYTE
         PutInt 0
         PutInt calcResponseRoutineId
         PutByte Protocol.VERSION
         PutByte status
         PutDouble resultBits
         PutString error
         PutByte Protocol.END_BYTE
         let total ← Position
         SetPosition 1
         PutInt total
         pure total : BBM Nat) ⟨List.replicate outCap 0, 0⟩)

open ByteBuffer in
/-- The calculator response frame as laid out by Execute: the length
field holds the total frame byte count 24 + error length. -/
def calcRespFrame (status bits : Nat) (err : List Nat) : List Nat :=
  [Protocol.START_BYTE] ++ beBytes 4 (24 + err.length) ++
    beBytes 4 calcResponseRoutineId ++ [Protocol.VERSION] ++ [status % 256] ++
    leBytes 8 bits ++ strEncode err ++ [Protocol.END_BYTE]

/-- The typed result Calculator::Impl::ExecuteOperation returns:
success flag, result double (as bits), error message. -/
structure CalcResult where
  success : Bool
  valueBits : Nat
  errorMessage : List Nat
  deriving DecidableEq, Repr

/-- Marker for the message built in the catch block of the client
proxy (Exception: followed by the exception text). -/
def msgClientException : List Nat := [69, 120, 99, 101, 112, 116, 105, 111, 110]

/-- ASCII bytes of Invalid response frame. -/
def msgInvalidResponseFrame : List Nat :=
  [73, 110, 118, 97, 108, 105, 100, 32, 114, 101, 115, 112, 111, 110, 115, 101,
   32, 102, 114, 97, 109, 101]

/-- ASCII bytes of Unexpected routine ID in response. -/
def msgUnexpectedRoutineId : List Nat :=
  [85, 110, 101, 120, 112, 101, 99, 116, 101, 100, 32, 114, 111, 117, 116, 105,
   110, 101, 32, 73, 68, 32, 105, 110, 32, 114, 101, 115, 112, 111, 110, 115, 101]

open ByteBuffer in
/-- The response-parsing portion of Calculator::Impl::ExecuteOperation
(after a successful RPC): start-byte check, frame length (read and
discarded), routine-id check, version (read and ignored), status byte,
result double, error string; a zero status yields success with the
value, a nonzero status yields failure carrying the decoded error
message.  A codec exception (including the ByteBuffer constructor
refusing an empty buffer) lands in the catch block. -/
def ParseCalcResponse (bytes : List Nat) : CalcResult :=
  if bytes.length = 0 then ⟨false, 0, msgClientException⟩
  else
    match GetByte ⟨bytes, 0⟩ with
    | (Except.error _, _) => ⟨false, 0, msgClientException⟩
    | (Except.ok start, s₁) =>
      if start ≠ Protocol.START_BYTE then ⟨false, 0, msgInvalidResponseFrame⟩
      else
        match GetInt s₁ with
        | (Except.error _, _) => ⟨false, 0, msgClientException⟩
        | (Except.ok _frameLen, s₂) =>
          match GetInt s₂ with
          | (Except.error _, _) => ⟨false, 0, msgClientException⟩
          | (Except.ok routineId, s₃) =>
            if routineId ≠ calcResponseRoutineId then
              ⟨false, 0, msgUnexpectedRoutineId⟩
            else
              match (do let version ← GetByte
                        let status ← GetByte
                        let value ← GetDouble
                        let errorMsg ← GetString
                        pure (version, status, value, errorMsg) :
                      BBM (Nat × Nat × Nat × List Nat)) s₃ with
              | (Except.error _, _) => ⟨false, 0, msgClientException⟩
              | (Except.ok (_version, status, value, errorMsg), _) =>
                if status = 0 then ⟨true, value, []⟩
                else ⟨false, 0, errorMsg⟩

/-! Basic lemmas about the byte encodings and the buffer region. -/

theorem length_beBytes (w n : Nat) : (beBytes w n).length = w := by
  induction w generalizing n with
  | zero => rfl
  | succ w ih => simp [beBytes, ih]

theorem length_leBytes (w n : Nat) : (leBytes w n).length = w := by
  induction w generalizing n with
  | zero => rfl
  | succ w ih => simp [leBytes, ih]

theorem beBytes_lt (w n : Nat) : ∀ b ∈ beBytes w n, b < 256 := by
  induction w generalizing n with
  | zero => intro b hb; simp [beBytes] at hb
  | succ w ih =>
      intro b hb
      simp only [beBytes, List.mem_append, List.mem_singleton] at hb
      rcases hb with hb | hb
      · exact ih _ _ hb
      · subst hb; exact Nat.mod_lt _ (by norm_num)

theorem leBytes_lt (w n : Nat) : ∀ b ∈ leBytes w n, b < 256 := by
  induction w generalizing n with
  | zero => intro b hb; simp [leBytes] at hb
  | succ w ih =>
      intro b hb
      simp only [leBytes, List.mem_cons] at hb
      rcases hb with hb | hb
      · subst hb; exact Nat.mod_lt _ (by norm_num)
      · exact ih _ _ hb

theorem beDecode_append_singleton (xs : List Nat) (b : Nat) :
    beDecode (xs ++ [b]) = beDecode xs * 256 + b := by
  induction xs with
  | nil => simp [beDecode]
  | cons x xs ih =>
      rw [List.cons_append]
      show x * 256 ^ (xs ++ [b]).length + beDecode (xs ++ [b]) = _
      rw [ih, List.length_append]
      show x * 256 ^ (xs.length + 1) + _ = (x * 256 ^ xs.length + beDecode xs) * 256 + b
      rw [pow_succ]
      ring

theorem beDecode_beBytes (w n : Nat) : beDecode (beBytes w n) = n % 256 ^ w := by
  induction w generalizing n with
  | zero => simp [beBytes, beDecode, Nat.mod_one]
  | succ w ih =>
      rw [beBytes, beDecode_append_singleton, ih, pow_succ, mul_comm (256 ^ w) 256,
        Nat.mod_mul]
      ring

theorem leDecode_leBytes (w n : Nat) : leDecode (leBytes w n) = n % 256 ^ w := by
  induction w generalizing n with
  | zero => simp [leBytes, leDecode, Nat.mod_one]
  | succ w ih =>
      rw [leBytes, leDecode, ih, pow_succ, mul_comm (256 ^ w) 256, Nat.mod_mul]

theorem length_listWrite (l bs : List Nat) (p : Nat) (h : p + bs.length ≤ l.length) :
    (listWrite l p bs).length = l.length := by
  simp only [listWrite, List.length_append, List.length_take, List.length_drop]
  omega

theorem listWrite_structure (l bs : List Nat) (p : Nat) :
    listWrite l p bs = (l.take p ++ bs) ++ l.drop (p + bs.length) := by
  simp [listWrite]

theorem take_listWrite (l bs : List Nat) (p : Nat) (h : p ≤ l.length) :
    (listWrite l p bs).take p = l.take p := by
  have hp : (l.take p).length = p := by
    simp [List.length_take]; omega
  calc (listWrite l p bs).take p
      = (l.take p ++ (bs ++ l.drop (p + bs.length))).take (l.take p).length := by
        rw [hp, listWrite, List.append_assoc]
    _ = l.take p := List.take_left _ _

theorem drop_listWrite (l bs : List Nat) (p : Nat) (h : p ≤ l.length) :
    (listWrite l p bs).drop p = bs ++ l.drop (p + bs.length) := by
  have hp : (l.take p).length = p := by
    simp [List.length_take]; omega
  calc (listWrite l p bs).drop p
      = (l.take p ++ (bs ++ l.drop (p + bs.length))).drop (l.take p).length := by
        rw [hp, listWrite, List.append_assoc]
    _ = bs ++ l.drop (p + bs.length) := List.drop_left _ _

theorem listWrite_fuse (l a b : List Nat) (p : Nat)
    (h : p + a.length + b.length ≤ l.length) :
    listWrite (listWrite l p a) (p + a.length) b = listWrite l p (a ++ b) := by
  have hpa : ((l.take p) ++ a).length = p + a.length := by
    simp [List.length_take]; omega
  have h1 : (listWrite l p a).take (p + a.length) = l.take p ++ a := by
    calc (listWrite l p a).take (p + a.length)
        = ((l.take p ++ a) ++ l.drop (p + a.length)).take ((l.take p) ++ a).length := by
          rw [hpa, listWrite_structure]
      _ = l.take p ++ a := List.take_left _ _
  have hd : (listWrite l p a).drop (p + a.length) = l.drop (p + a.length) := by
    calc (listWrite l p a).drop (p + a.length)
        = ((l.take p ++ a) ++ l.drop (p + a.length)).drop ((l.take p) ++ a).length := by
          rw [hpa, listWrite_structure]
      _ = l.drop (p + a.length) := List.drop_left _ _
  have h2 : (listWrite l p a).drop (p + a.length + b.length) =
      l.drop (p + a.length + b.length) := by
    rw [← List.drop_drop, hd, List.drop_drop]
  show (listWrite l p a).take (p + a.length) ++ b ++
      (listWrite l p a).drop (p + a.length + b.length) = listWrite l p (a ++ b)
  rw [h1, h2, listWrite, List.length_append, ← Nat.add_assoc]
  simp [List.append_assoc]

theorem listWrite_zero (l bs : List Nat) : listWrite l 0 bs = bs ++ l.drop bs.length := by
  simp [listWrite]

theorem listWrite_patch0 (l a b b' c : List Nat) (hb : b'.length = b.length) :
    listWrite (listWrite l 0 (a ++ (b ++ c))) a.length b' =
      listWrite l 0 (a ++ (b' ++ c)) := by
  have hX : listWrite l 0 (a ++ (b ++ c)) =
      (a ++ (b ++ c)) ++ l.drop (a ++ (b ++ c)).length := listWrite_zero _ _
  have htake : (listWrite l 0 (a ++ (b ++ c))).take a.length = a := by
    rw [hX, List.append_assoc]
    exact List.take_left _ _
  have hdrop : (listWrite l 0 (a ++ (b ++ c))).drop (a.length + b'.length) =
      c ++ l.drop (a ++ (b ++ c)).length := by
    rw [hb, hX]
    have hsh : (a ++ (b ++ c)) ++ l.drop (a ++ (b ++ c)).length =
        (a ++ b) ++ (c ++ l.drop (a ++ (b ++ c)).length) := by
      simp [List.append_assoc]
    rw [hsh, show a.length + b.length = (a ++ b).length from
      (List.length_append _ _).symm, List.drop_left]
  show (listWrite l 0 (a ++ (b ++ c))).take a.length ++ b' ++
      (listWrite l 0 (a ++ (b ++ c))).drop (a.length + b'.length) = _
  rw [htake, hdrop, listWrite_zero]
  have hTT : (a ++ (b' ++ c)).length = (a ++ (b ++ c)).length := by simp [hb]
  rw [hTT]
  simp [List.append_assoc]

theorem mapMod_eq_self (l : List Nat) (h : ∀ b ∈ l, b < 256) :
    l.map (· % 256) = l := by
  induction l with
  | nil => rfl
  | cons x xs ih =>
      have hx : x < 256 := h x (List.mem_cons_self x xs)
      simp only [List.map_cons, Nat.mod_eq_of_lt hx,
        ih (fun b hb => h b (List.mem_cons_of_mem x hb))]

/-! Application lemmas for the monad structure. -/

theorem bbm_bind_apply {α β : Type} (x : BBM α) (f : α → BBM β) (s : ByteBuffer) :
    (x >>= f) s =
      match x s with
      | (Except.ok a, s₁) => f a s₁
      | (Except.error e, s₁) => (Except.error e, s₁) := rfl

theorem bbm_pure_apply {α : Type} (a : α) (s : ByteBuffer) :
    (pure a : BBM α) s = (Except.ok a, s) := rfl

namespace ByteBuffer

/-! Success and failure characterisations of the core operations. -/

theorem WriteBytes_ok (d bs : List Nat) (p : Nat) (h : p + bs.length ≤ d.length) :
    WriteBytes bs ⟨d, p⟩ =
      (Except.ok (), ⟨listWrite d p bs, p + bs.length⟩) := by
  simp [WriteBytes, h]

theorem WriteBytes_err (d bs : List Nat) (p : Nat) (h : ¬ p + bs.length ≤ d.length) :
    WriteBytes bs ⟨d, p⟩ = (Except.error BBError.overflow, ⟨d, p⟩) := by
  simp [WriteBytes, h]

theorem drop_region (d enc rest : List Nat) (p : Nat) (hd : d.drop p = enc ++ rest) :
    d.drop (p + enc.length) = rest := by
  rw [← List.drop_drop, hd, List.drop_left]

theorem region_length (d enc rest : List Nat) (p : Nat)
    (hd : d.drop p = enc ++ rest) (hp : p ≤ d.length) :
    p + enc.length + rest.length = d.length := by
  have := congrArg List.length hd
  simp only [List.length_drop, List.length_append] at this
  omega

theorem ReadBytes_region (d enc rest : List Nat) (p : Nat)
    (hd : d.drop p = enc ++ rest) (hp : p ≤ d.length) :
    ReadBytes enc.length ⟨d, p⟩ = (Except.ok enc, ⟨d, p + enc.length⟩) := by
  have hlen := region_length d enc rest p hd hp
  have hle : p + enc.length ≤ d.length := by omega
  have htake : (d.drop p).take enc.length = enc := by
    rw [hd, List.take_left]
  simp [ReadBytes, hle, htake]

theorem ReadBytes_err (d : List Nat) (n p : Nat) (h : ¬ p + n ≤ d.length) :
    ReadBytes n ⟨d, p⟩ = (Except.error BBError.underflow, ⟨d, p⟩) := by
  simp [ReadBytes, h]

theorem GetByte_region (d rest : List Nat) (b p : Nat)
    (hd : d.drop p = b :: rest) (hp : p ≤ d.length) :
    GetByte ⟨d, p⟩ = (Except.ok b, ⟨d, p + 1⟩) := by
  have h := ReadBytes_region d [b] rest p (by simpa using hd) hp
  simp only [List.length_singleton] at h
  simp [GetByte, bbm_bind_apply, h, bbm_pure_apply, List.headD]

theorem GetShort_region (d rest : List Nat) (n p : Nat)
    (hd : d.drop p = beBytes 2 n ++ rest) (hp : p ≤ d.length) (hn : n < 2 ^ 16) :
    GetShort ⟨d, p⟩ = (Except.ok n, ⟨d, p + 2⟩) := by
  have h := ReadBytes_region d (beBytes 2 n) rest p hd hp
  rw [length_beBytes] at h
  have hdec : beDecode (beBytes 2 n) = n := by
    rw [beDecode_beBytes]
    exact Nat.mod_eq_of_lt (by norm_num at hn ⊢; omega)
  simp [GetShort, bbm_bind_apply, h, bbm_pure_apply, hdec]

theorem GetInt_region (d rest : List Nat) (n p : Nat)
    (hd : d.drop p = beBytes 4 n ++ rest) (hp : p ≤ d.length) (hn : n < 2 ^ 32) :
    GetInt ⟨d, p⟩ = (Except.ok n, ⟨d, p + 4⟩) := by
  have h := ReadBytes_region d (beBytes 4 n) rest p hd hp
  rw [length_beBytes] at h
  have hdec : beDecode (beBytes 4 n) = n := by
    rw [beDecode_beBytes]
    exact Nat.mod_eq_of_lt (by norm_num at hn ⊢; omega)
  simp [GetInt, bbm_bind_apply, h, bbm_pure_apply, hdec]

theorem GetLong_region (d rest : List Nat) (n p : Nat)
    (hd : d.drop p = (beBytes 4 (n / 2 ^ 32) ++ beBytes 4 n) ++ rest)
    (hp : p ≤ d.length) (hn : n < 2 ^ 64) :
    GetLong ⟨d, p⟩ = (Except.ok n, ⟨d, p + 8⟩) := by
  rw [List.append_assoc] at hd
  have h1 := ReadBytes_region d (beBytes 4 (n / 2 ^ 32)) (beBytes 4 n ++ rest) p hd hp
  rw [length_beBytes] at h1
  have hd2 : d.drop (p + 4) = beBytes 4 n ++ rest := by
    have := drop_region d (beBytes 4 (n / 2 ^ 32)) (beBytes 4 n ++ rest) p hd
    rwa [length_beBytes] at this
  have hp2 : p + 4 ≤ d.length := by
    have := region_length d (beBytes 4 (n / 2 ^ 32)) (beBytes 4 n ++ rest) p hd hp
    rw [length_beBytes] at this
    omega
  have h2 := ReadBytes_region d (beBytes 4 n) rest (p + 4) hd2 hp2
  rw [length_beBytes] at h2
  have hdec : beDecode (beBytes 4 (n / 2 ^ 32)) * 2 ^ 32 + beDecode (beBytes 4 n) = n := by
    rw [beDecode_beBytes, beDecode_beBytes]
    have e1 : (256 : Nat) ^ 4 = 2 ^ 32 := by norm_num
    rw [e1]
    have h64 : n / 2 ^ 32 < 2 ^ 32 := by
      have : (2 : Nat) ^ 64 = 2 ^ 32 * 2 ^ 32 := by norm_num
      omega
    rw [Nat.mod_eq_of_lt h64]
    have := Nat.div_add_mod n (2 ^ 32)
    omega
  simp only [GetLong, bbm_bind_apply, h1, h2, bbm_pure_apply, hdec]

theorem GetFloat_region (d rest : List Nat) (bits p : Nat)
    (hd : d.drop p = leBytes 4 bits ++ rest) (hp : p ≤ d.length) (hb : bits < 2 ^ 32) :
    GetFloat ⟨d, p⟩ = (Except.ok bits, ⟨d, p + 4⟩) := by
  have h := ReadBytes_region d (leBytes 4 bits) rest p hd hp
  rw [length_leBytes] at h
  have hdec : leDecode (leBytes 4 bits) = bits := by
    rw [leDecode_leBytes]
    exact Nat.mod_eq_of_lt (by norm_num at hb ⊢; omega)
  simp [GetFloat, bbm_bind_apply, h, bbm_pure_apply, hdec]

theorem GetDouble_region (d rest : List Nat) (bits p : Nat)
    (hd : d.drop p = leBytes 8 bits ++ rest) (hp : p ≤ d.length) (hb : bits < 2 ^ 64) :
    GetDouble ⟨d, p⟩ = (Except.ok bits, ⟨d, p + 8⟩) := by
  have h := ReadBytes_region d (leBytes 8 bits) rest p hd hp
  rw [length_leBytes] at h
  have hdec : leDecode (leBytes 8 bits) = bits := by
    rw [leDecode_leBytes]
    exact Nat.mod_eq_of_lt (by norm_num at hb ⊢; omega)
  simp [GetDouble, bbm_bind_apply, h, bbm_pure_apply, hdec]

theorem length_strEncode (str : List Nat) :
    (strEncode str).length = 4 + str.length := by
  simp [strEncode, length_beBytes]

theorem GetString_region (d rest str : List Nat) (p : Nat)
    (hd : d.drop p = strEncode str ++ rest) (hp : p ≤ d.length)
    (hb : ∀ b ∈ str, b < 256) (hn : str.length < 2 ^ 32) :
    GetString ⟨d, p⟩ = (Except.ok str, ⟨d, p + 4 + str.length⟩) := by
  rw [strEncode, mapMod_eq_self str hb, List.append_assoc] at hd
  have h1 := GetInt_region d (str ++ rest) str.length p hd hp hn
  have hd2 : d.drop (p + 4) = str ++ rest := by
    have := drop_region d (beBytes 4 str.length) (str ++ rest) p hd
    rwa [length_beBytes] at this
  have hp2 : p + 4 ≤ d.length := by
    have := region_length d (beBytes 4 str.length) (str ++ rest) p hd hp
    rw [length_beBytes] at this
    omega
  rcases Nat.eq_zero_or_pos str.length with hz | hpos
  · have hstr : str = [] := List.length_eq_zero.mp hz
    subst hstr
    simp [GetString, bbm_bind_apply, h1, bbm_pure_apply]
  · have h2 := ReadBytes_region d str rest (p + 4) hd2 hp2
    have hne : str.length ≠ 0 := by omega
    simp [GetString, bbm_bind_apply, h1, bbm_pure_apply, hne, h2, Nat.add_assoc]

theorem PutByte_ok (d : List Nat) (b p : Nat) (h : p + 1 ≤ d.length) :
    PutByte b ⟨d, p⟩ = (Except.ok (), ⟨listWrite d p [b % 256], p + 1⟩) := by
  have := WriteBytes_ok d [b % 256] p (by simpa using h)
  simpa [PutByte] using this

theorem PutShort_ok (d : List Nat) (n p : Nat) (h : p + 2 ≤ d.length) :
    PutShort n ⟨d, p⟩ = (Except.ok (), ⟨listWrite d p (beBytes 2 n), p + 2⟩) := by
  have := WriteBytes_ok d (beBytes 2 n) p (by rw [length_beBytes]; omega)
  rw [length_beBytes] at this
  simpa [PutShort] using this

theorem PutInt_ok (d : List Nat) (n p : Nat) (h : p + 4 ≤ d.length) :
    PutInt n ⟨d, p⟩ = (Except.ok (), ⟨listWrite d p (beBytes 4 n), p + 4⟩) := by
  have := WriteBytes_ok d (beBytes 4 n) p (by rw [length_beBytes]; omega)
  rw [length_beBytes] at this
  simpa [PutInt] using this

theorem PutFloat_ok (d : List Nat) (bits p : Nat) (h : p + 4 ≤ d.length) :
    PutFloat bits ⟨d, p⟩ = (Except.ok (), ⟨listWrite d p (leBytes 4 bits), p + 4⟩) := by
  have := WriteBytes_ok d (leBytes 4 bits) p (by rw [length_leBytes]; omega)
  rw [length_leBytes] at this
  simpa [PutFloat] using this

theorem PutDouble_ok (d : List Nat) (bits p : Nat) (h : p + 8 ≤ d.length) :
    PutDouble bits ⟨d, p⟩ = (Except.ok (), ⟨listWrite d p (leBytes 8 bits), p + 8⟩) := by
  have := WriteBytes_ok d (leBytes 8 bits) p (by rw [length_leBytes]; omega)
  rw [length_leBytes] at this
  simpa [PutDouble] using this

theorem PutLong_ok (d : List Nat) (n p : Nat) (h : p + 8 ≤ d.length) :
    PutLong n ⟨d, p⟩ =
      (Except.ok (), ⟨listWrite d p (beBytes 4 (n / 2 ^ 32) ++ beBytes 4 n), p + 8⟩) := by
  have h1 := WriteBytes_ok d (beBytes 4 (n / 2 ^ 32)) p (by rw [length_beBytes]; omega)
  have hlen : (listWrite d p (beBytes 4 (n / 2 ^ 32))).length = d.length :=
    length_listWrite _ _ _ (by rw [length_beBytes]; omega)
  have h2 := WriteBytes_ok (listWrite d p (beBytes 4 (n / 2 ^ 32))) (beBytes 4 n)
    (p + (beBytes 4 (n / 2 ^ 32)).length)
    (by rw [hlen, length_beBytes, length_beBytes]; omega)
  have hfuse := listWrite_fuse d (beBytes 4 (n / 2 ^ 32)) (beBytes 4 n) p
    (by rw [length_beBytes, length_beBytes]; omega)
  simp only [length_beBytes] at h1 h2 hfuse
  simp only [PutLong, bbm_bind_apply, h1, h2, hfuse, length_beBytes]

theorem PutString_ok (d str : List Nat) (p : Nat)
    (h : p + 4 + str.length ≤ d.length) :
    PutString str ⟨d, p⟩ =
      (Except.ok (), ⟨listWrite d p (strEncode str), p + 4 + str.length⟩) := by
  have h1 := PutInt_ok d str.length p (by omega)
  rcases Nat.eq_zero_or_pos str.length with hz | hpos
  · have hstr : str = [] := List.length_eq_zero.mp hz
    subst hstr
    have h1z : PutInt 0 ⟨d, p⟩ =
        (Except.ok (), ⟨listWrite d p (beBytes 4 0), p + 4⟩) := by simpa using h1
    simp [PutString, bbm_bind_apply, h1z, bbm_pure_apply, strEncode]
  · have hlen : (listWrite d p (beBytes 4 str.length)).length = d.length :=
      length_listWrite _ _ _ (by rw [length_beBytes]; omega)
    have h2 := WriteBytes_ok (listWrite d p (beBytes 4 str.length)) (str.map (· % 256))
      (p + 4) (by rw [hlen, List.length_map]; omega)
    have hfuse := listWrite_fuse d (beBytes 4 str.length) (str.map (· % 256)) p
      (by rw [length_beBytes, List.length_map]; omega)
    rw [length_beBytes] at hfuse
    have hne : str.length ≠ 0 := by omega
    simp only [PutString, bbm_bind_apply, h1, hne, if_true, gt_iff_lt, hpos]
    rw [show p + 4 = p + (beBytes 4 str.length).length by rw [length_beBytes]] at h2
    rw [length_beBytes] at h2
    simp only [h2, hfuse, List.length_map, strEncode, Nat.add_assoc]

theorem listWrite_nil (l : List Nat) (p : Nat) : listWrite l p [] = l := by
  simp [listWrite]

theorem pairsEncode_cons (k v : List Nat) (rest : List (List Nat × List Nat)) :
    pairsEncode ((k, v) :: rest) =
      strEncode k ++ (strEncode v ++ pairsEncode rest) := by
  simp [pairsEncode, List.append_assoc]

theorem PutPairs_ok (m : List (List Nat × List Nat)) :
    ∀ (d : List Nat) (p : Nat), p + (pairsEncode m).length ≤ d.length →
    PutPairs m ⟨d, p⟩ =
      (Except.ok (), ⟨listWrite d p (pairsEncode m), p + (pairsEncode m).length⟩) := by
  induction m with
  | nil =>
      intro d p h
      simp [PutPairs, pairsEncode, bbm_pure_apply, listWrite_nil]
  | cons kv rest ih =>
      rcases kv with ⟨k, v⟩
      intro d p h
      rw [pairsEncode_cons] at h ⊢
      simp only [List.length_append, length_strEncode] at h
      have h1 := PutString_ok d k p (by omega)
      have hlen1 : (listWrite d p (strEncode k)).length = d.length :=
        length_listWrite _ _ _ (by rw [length_strEncode]; omega)
      have h2 := PutString_ok (listWrite d p (strEncode k)) v (p + 4 + k.length)
        (by rw [hlen1]; omega)
      have hlen2 : (listWrite (listWrite d p (strEncode k)) (p + 4 + k.length)
          (strEncode v)).length = d.length := by
        rw [length_listWrite _ _ _ (by rw [hlen1, length_strEncode]; omega), hlen1]
      have hfuse1 : listWrite (listWrite d p (strEncode k)) (p + 4 + k.length)
          (strEncode v) = listWrite d p (strEncode k ++ strEncode v) := by
        have := listWrite_fuse d (strEncode k) (strEncode v) p
          (by rw [length_strEncode, length_strEncode]; omega)
        rwa [length_strEncode, ← Nat.add_assoc] at this
      have h3 := ih (listWrite d p (strEncode k ++ strEncode v))
        (p + 4 + k.length + 4 + v.length)
        (by rw [length_listWrite _ _ _ (by simp [length_strEncode]; omega)]; omega)
      have hfuse2 : listWrite (listWrite d p (strEncode k ++ strEncode v))
          (p + 4 + k.length + 4 + v.length) (pairsEncode rest) =
          listWrite d p ((strEncode k ++ strEncode v) ++ pairsEncode rest) := by
        have := listWrite_fuse d (strEncode k ++ strEncode v) (pairsEncode rest) p
          (by simp [length_strEncode]; omega)
        rwa [List.length_append, length_strEncode, length_strEncode,
          show p + (4 + k.length + (4 + v.length)) = p + 4 + k.length + 4 + v.length
            by omega] at this
      simp only [PutPairs, bbm_bind_apply, h1, h2, hfuse1, h3, hfuse2,
        List.append_assoc]
      rw [show p + 4 + k.length + 4 + v.length + (pairsEncode rest).length =
        p + (strEncode k ++ (strEncode v ++ pairsEncode rest)).length from by
          simp only [List.length_append, length_strEncode]; omega]

theorem GetPairs_region (m : List (List Nat × List Nat)) :
    ∀ (d rest : List Nat) (p : Nat), d.drop p = pairsEncode m ++ rest →
    p ≤ d.length → mapWF m →
    GetPairs m.length ⟨d, p⟩ =
      (Except.ok m, ⟨d, p + (pairsEncode m).length⟩) := by
  induction m with
  | nil =>
      intro d rest p hd hp hwf
      simp [GetPairs, pairsEncode, bbm_pure_apply]
  | cons kv rest ih =>
      rcases kv with ⟨k, v⟩
      intro d rest0 p hd hp hwf
      rw [pairsEncode_cons] at hd
      simp only [List.append_assoc] at hd
      obtain ⟨hk, hkl, hv, hvl⟩ := hwf (k, v) (List.mem_cons_self _ _)
      have hwfrest : mapWF rest := fun kv hkv => hwf kv (List.mem_cons_of_mem _ hkv)
      have h1 := GetString_region d (strEncode v ++ (pairsEncode rest ++ rest0)) k p
        hd hp hk hkl
      have hd2 : d.drop (p + (4 + k.length)) =
          strEncode v ++ (pairsEncode rest ++ rest0) := by
        have := drop_region d (strEncode k) _ p hd
        rwa [length_strEncode] at this
      have hp2 : p + (4 + k.length) ≤ d.length := by
        have := region_length d (strEncode k) _ p hd hp
        rw [length_strEncode] at this
        omega
      have h2 := GetString_region d (pairsEncode rest ++ rest0) v (p + (4 + k.length))
        hd2 hp2 hv hvl
      have hd3 : d.drop (p + (4 + k.length) + (4 + v.length)) =
          pairsEncode rest ++ rest0 := by
        have := drop_region d (strEncode v) _ (p + (4 + k.length)) hd2
        rwa [length_strEncode] at this
      have hp3 : p + (4 + k.length) + (4 + v.length) ≤ d.length := by
        have := region_length d (strEncode v) _ (p + (4 + k.length)) hd2 hp2
        rw [length_strEncode] at this
        omega
      have h3 := ih d rest0 (p + (4 + k.length) + (4 + v.length)) hd3 hp3 hwfrest
      rw [show p + (4 + k.length) = p + 4 + k.length by omega] at h2
      rw [show p + (4 + k.length) + (4 + v.length) = p + 4 + k.length + 4 + v.length
        by omega] at h3
      show GetPairs (rest.length + 1) ⟨d, p⟩ = _
      simp only [GetPairs, bbm_bind_apply, h1, h2, h3, bbm_pure_apply]
      rw [pairsEncode_cons, show p + 4 + k.length + 4 + v.length +
        (pairsEncode rest).length =
        p + (strEncode k ++ (strEncode v ++ pairsEncode rest)).length from by
          simp only [List.length_append, length_strEncode]; omega]

theorem PutMap_ok (d : List Nat) (m : List (List Nat × List Nat)) (p : Nat)
    (h : p + (mapEncode m).length ≤ d.length) :
    PutMap m ⟨d, p⟩ =
      (Except.ok (), ⟨listWrite d p (mapEncode m), p + (mapEncode m).length⟩) := by
  simp only [mapEncode, List.length_append, length_beBytes] at h
  have h1 := PutInt_ok d m.length p (by omega)
  have h2 := PutPairs_ok m (listWrite d p (beBytes 4 m.length)) (p + 4)
    (by rw [length_listWrite _ _ _ (by rw [length_beBytes]; omega)]; omega)
  have hfuse := listWrite_fuse d (beBytes 4 m.length) (pairsEncode m) p
    (by rw [length_beBytes]; omega)
  rw [length_beBytes] at hfuse
  simp only [PutMap, bbm_bind_apply, h1, h2, hfuse, mapEncode]
  rw [show p + 4 + (pairsEncode m).length =
    p + (beBytes 4 m.length ++ pairsEncode m).length from by
      simp only [List.length_append, length_beBytes]; omega]

theorem GetMap_region (d rest : List Nat) (m : List (List Nat × List Nat)) (p : Nat)
    (hd : d.drop p = mapEncode m ++ rest) (hp : p ≤ d.length)
    (hwf : mapWF m) (hml : m.length < 2 ^ 32) :
    GetMap ⟨d, p⟩ = (Except.ok m, ⟨d, p + (mapEncode m).length⟩) := by
  rw [mapEncode, List.append_assoc] at hd
  have h1 := GetInt_region d (pairsEncode m ++ rest) m.length p hd hp hml
  have hd2 : d.drop (p + 4) = pairsEncode m ++ rest := by
    have := drop_region d (beBytes 4 m.length) _ p hd
    rwa [length_beBytes] at this
  have hp2 : p + 4 ≤ d.length := by
    have := region_length d (beBytes 4 m.length) _ p hd hp
    rw [length_beBytes] at this
    omega
  have h2 := GetPairs_region m d rest (p + 4) hd2 hp2 hwf
  simp only [GetMap, bbm_bind_apply, h1, h2, mapEncode]
  rw [show p + 4 + (pairsEncode m).length =
    p + (beBytes 4 m.length ++ pairsEncode m).length from by
      simp only [List.length_append, length_beBytes]; omega]

theorem PutByte_ok2 (d : List Nat) (b p : Nat) (hb : b < 256) (h : p + 1 ≤ d.length) :
    PutByte b ⟨d, p⟩ = (Except.ok (), ⟨listWrite d p [b], p + 1⟩) := by
  have := PutByte_ok d b p h
  rwa [Nat.mod_eq_of_lt hb] at this

theorem PutString_ok2 (d str : List Nat) (p : Nat)
    (h : p + (4 + str.length) ≤ d.length) :
    PutString str ⟨d, p⟩ =
      (Except.ok (), ⟨listWrite d p (strEncode str), p + (4 + str.length)⟩) := by
  rw [← Nat.add_assoc]
  exact PutString_ok d str p (by omega)

/-- One sequential write appended to an already-written prefix of a
scratch buffer. -/
theorem writeStep (C A enc : List Nat) (w : Nat) (put : BBM Unit)
    (henc : enc.length = w)
    (hput : ∀ d p, p + w ≤ d.length → put ⟨d, p⟩ =
      (Except.ok (), ⟨listWrite d p enc, p + w⟩))
    (hcap : A.length + w ≤ C.length) :
    put ⟨listWrite C 0 A, A.length⟩ =
      (Except.ok (), ⟨listWrite C 0 (A ++ enc), A.length + w⟩) := by
  have hlen : (listWrite C 0 A).length = C.length :=
    length_listWrite _ _ _ (by omega)
  have h := hput (listWrite C 0 A) A.length (by rw [hlen]; omega)
  have hfuse := listWrite_fuse C A enc 0 (by omega)
  rw [Nat.zero_add] at hfuse
  rw [h, hfuse]

theorem SetPosition_ok (d : List Nat) (p q : Nat) (h : p ≤ d.length) :
    SetPosition p ⟨d, q⟩ = (Except.ok (), ⟨d, p⟩) := by
  simp [SetPosition, h]

/-- Evaluate a write-rewind-read sequence from its three steps. -/
theorem seq3_eval {α : Type} (put : BBM Unit) (get : BBM α) (s : ByteBuffer)
    (dmid : List Nat) (q p : Nat) (r : Except BBError α × ByteBuffer)
    (h1 : put s = (Except.ok (), ⟨dmid, q⟩)) (h2 : p ≤ dmid.length)
    (h3 : get ⟨dmid, p⟩ = r) :
    (do put; SetPosition p; get : BBM α) s = r := by
  have hset : SetPosition p ⟨dmid, q⟩ = (Except.ok (), ⟨dmid, p⟩) := by
    simp [SetPosition, h2]
  simp only [bbm_bind_apply, h1, hset, h3]

theorem roundtrip_byte (d : List Nat) (p b : Nat) (hb : b < 256)
    (h : p + 1 ≤ d.length) :
    (do PutByte b; SetPosition p; GetByte : BBM Nat) ⟨d, p⟩ =
      (Except.ok b, ⟨listWrite d p [b], p + 1⟩) := by
  have h1 := PutByte_ok d b p h
  rw [Nat.mod_eq_of_lt hb] at h1
  have hlen : (listWrite d p [b]).length = d.length :=
    length_listWrite _ _ _ (by simpa using h)
  have hdrop : (listWrite d p [b]).drop p = b :: d.drop (p + 1) := by
    have := drop_listWrite d [b] p (by omega)
    simpa using this
  exact seq3_eval _ _ _ _ _ p _ h1 (by omega)
    (GetByte_region _ _ _ _ hdrop (by omega))

theorem roundtrip_short (d : List Nat) (p n : Nat) (hn : n < 2 ^ 16)
    (h : p + 2 ≤ d.length) :
    (do PutShort n; SetPosition p; GetShort : BBM Nat) ⟨d, p⟩ =
      (Except.ok n, ⟨listWrite d p (beBytes 2 n), p + 2⟩) := by
  have h1 := PutShort_ok d n p h
  have hlen : (listWrite d p (beBytes 2 n)).length = d.length :=
    length_listWrite _ _ _ (by rw [length_beBytes]; omega)
  have hdrop : (listWrite d p (beBytes 2 n)).drop p =
      beBytes 2 n ++ d.drop (p + 2) := by
    have := drop_listWrite d (beBytes 2 n) p (by omega)
    rwa [length_beBytes] at this
  exact seq3_eval _ _ _ _ _ p _ h1 (by omega)
    (GetShort_region _ _ _ _ hdrop (by omega) hn)

theorem roundtrip_int (d : List Nat) (p n : Nat) (hn : n < 2 ^ 32)
    (h : p + 4 ≤ d.length) :
    (do PutInt n; SetPosition p; GetInt : BBM Nat) ⟨d, p⟩ =
      (Except.ok n, ⟨listWrite d p (beBytes 4 n), p + 4⟩) := by
  have h1 := PutInt_ok d n p h
  have hlen : (listWrite d p (beBytes 4 n)).length = d.length :=
    length_listWrite _ _ _ (by rw [length_beBytes]; omega)
  have hdrop : (listWrite d p (beBytes 4 n)).drop p =
      beBytes 4 n ++ d.drop (p + 4) := by
    have := drop_listWrite d (beBytes 4 n) p (by omega)
    rwa [length_beBytes] at this
  exact seq3_eval _ _ _ _ _ p _ h1 (by omega)
    (GetInt_region _ _ _ _ hdrop (by omega) hn)

theorem roundtrip_long (d : List Nat) (p n : Nat) (hn : n < 2 ^ 64)
    (h : p + 8 ≤ d.length) :
    (do PutLong n; SetPosition p; GetLong : BBM Nat) ⟨d, p⟩ =
      (Except.ok n,
        ⟨listWrite d p (beBytes 4 (n / 2 ^ 32) ++ beBytes 4 n), p + 8⟩) := by
  have h1 := PutLong_ok d n p h
  have henc : (beBytes 4 (n / 2 ^ 32) ++ beBytes 4 n).length = 8 := by
    simp [length_beBytes]
  have hlen : (listWrite d p (beBytes 4 (n / 2 ^ 32) ++ beBytes 4 n)).length =
      d.length := length_listWrite _ _ _ (by rw [henc]; omega)
  have hdrop : (listWrite d p (beBytes 4 (n / 2 ^ 32) ++ beBytes 4 n)).drop p =
      (beBytes 4 (n / 2 ^ 32) ++ beBytes 4 n) ++ d.drop (p + 8) := by
    have := drop_listWrite d (beBytes 4 (n / 2 ^ 32) ++ beBytes 4 n) p (by omega)
    rwa [henc] at this
  exact seq3_eval _ _ _ _ _ p _ h1 (by omega)
    (GetLong_region _ _ _ _ hdrop (by omega) hn)

theorem roundtrip_double (d : List Nat) (p bits : Nat) (hb : bits < 2 ^ 64)
    (h : p + 8 ≤ d.length) :
    (do PutDouble bits; SetPosition p; GetDouble : BBM Nat) ⟨d, p⟩ =
      (Except.ok bits, ⟨listWrite d p (leBytes 8 bits), p + 8⟩) := by
  have h1 := PutDouble_ok d bits p h
  have hlen : (listWrite d p (leBytes 8 bits)).length = d.length :=
    length_listWrite _ _ _ (by rw [length_leBytes]; omega)
  have hdrop : (listWrite d p (leBytes 8 bits)).drop p =
      leBytes 8 bits ++ d.drop (p + 8) := by
    have := drop_listWrite d (leBytes 8 bits) p (by omega)
    rwa [length_leBytes] at this
  exact seq3_eval _ _ _ _ _ p _ h1 (by omega)
    (GetDouble_region _ _ _ _ hdrop (by omega) hb)

theorem roundtrip_string (d str : List Nat) (p : Nat)
    (hb : ∀ b ∈ str, b < 256) (hn : str.length < 2 ^ 32)
    (h : p + 4 + str.length ≤ d.length) :
    (do PutString str; SetPosition p; GetString : BBM (List Nat)) ⟨d, p⟩ =
      (Except.ok str, ⟨listWrite d p (strEncode str), p + 4 + str.length⟩) := by
  have h1 := PutString_ok d str p h
  have hlen : (listWrite d p (strEncode str)).length = d.length :=
    length_listWrite _ _ _ (by rw [length_strEncode]; omega)
  have hdrop : (listWrite d p (strEncode str)).drop p =
      strEncode str ++ d.drop (p + (strEncode str).length) :=
    drop_listWrite d (strEncode str) p (by omega)
  exact seq3_eval _ _ _ _ _ p _ h1 (by omega)
    (GetString_region _ _ _ _ hdrop (by omega) hb hn)

theorem roundtrip_map (d : List Nat) (m : List (List Nat × List Nat)) (p : Nat)
    (hwf : mapWF m) (hml : m.length < 2 ^ 32)
    (h : p + (mapEncode m).length ≤ d.length) :
    (do PutMap m; SetPosition p; GetMap : BBM (List (List Nat × List Nat))) ⟨d, p⟩ =
      (Except.ok m, ⟨listWrite d p (mapEncode m), p + (mapEncode m).length⟩) := by
  have h1 := PutMap_ok d m p h
  have hlen : (listWrite d p (mapEncode m)).length = d.length :=
    length_listWrite _ _ _ (by omega)
  have hdrop : (listWrite d p (mapEncode m)).drop p =
      mapEncode m ++ d.drop (p + (mapEncode m).length) :=
    drop_listWrite d (mapEncode m) p (by omega)
  exact seq3_eval _ _ _ _ _ p _ h1 (by omega)
    (GetMap_region _ _ _ _ hdrop (by omega) hwf hml)

theorem bounded_bind {α β : Type} {x : BBM α} {f : α → BBM β}
    (hx : Bounded x) (hf : ∀ a, Bounded (f a)) : Bounded (x >>= f) := by
  intro s hs
  have hxs := hx s hs
  rcases hm : x s with ⟨r, s₁⟩
  rw [hm] at hxs
  simp only at hxs
  cases r with
  | ok a =>
      have h1 : (x >>= f) s = f a s₁ := by rw [bbm_bind_apply, hm]
      rw [h1]
      have hfa := hf a s₁ hxs.2
      exact ⟨hfa.1.trans hxs.1, hfa.2⟩
  | error e =>
      have h1 : (x >>= f) s = (Except.error e, s₁) := by rw [bbm_bind_apply, hm]
      rw [h1]
      exact hxs

theorem bounded_pure {α : Type} (a : α) : Bounded (pure a : BBM α) := by
  intro s hs
  exact ⟨rfl, hs⟩

theorem bounded_throw {α : Type} (e : BBError) : Bounded (bbThrow e : BBM α) := by
  intro s hs
  exact ⟨rfl, hs⟩

theorem bounded_writeBytes (bs : List Nat) : Bounded (WriteBytes bs) := by
  intro s hs
  by_cases h : s.position + bs.length ≤ s.data.length
  · rw [WriteBytes, if_pos h]
    have := length_listWrite s.data bs s.position h
    simp [this, h]
  · rw [WriteBytes, if_neg h]
    exact ⟨rfl, hs⟩

theorem bounded_readBytes (n : Nat) : Bounded (ReadBytes n) := by
  intro s hs
  by_cases h : s.position + n ≤ s.data.length
  · rw [ReadBytes, if_pos h]
    exact ⟨rfl, h⟩
  · rw [ReadBytes, if_neg h]
    exact ⟨rfl, hs⟩

theorem bounded_setPosition (p : Nat) : Bounded (SetPosition p) := by
  intro s hs
  by_cases h : p ≤ s.data.length
  · rw [SetPosition, if_pos h]
    exact ⟨rfl, h⟩
  · rw [SetPosition, if_neg h]
    exact ⟨rfl, hs⟩

theorem bounded_position : Bounded Position := by
  intro s hs
  exact ⟨rfl, hs⟩

theorem bounded_putByte (b : Nat) : Bounded (PutByte b) := bounded_writeBytes _

theorem bounded_putShort (n : Nat) : Bounded (PutShort n) := bounded_writeBytes _

theorem bounded_putInt (n : Nat) : Bounded (PutInt n) := bounded_writeBytes _

theorem bounded_putFloat (bits : Nat) : Bounded (PutFloat bits) := bounded_writeBytes _

theorem bounded_putDouble (bits : Nat) : Bounded (PutDouble bits) := bounded_writeBytes _

theorem bounded_putLong (n : Nat) : Bounded (PutLong n) :=
  bounded_bind (bounded_writeBytes _) (fun _ => bounded_writeBytes _)

theorem bounded_putString (str : List Nat) : Bounded (PutString str) := by
  refine bounded_bind (bounded_writeBytes _) (fun _ => ?_)
  by_cases h : str.length > 0
  · simpa [PutString, h] using bounded_writeBytes (str.map (· % 256))
  · simpa [PutString, h] using bounded_pure ()

theorem bounded_putArray (arr : Option (List Nat)) (len : Nat) :
    Bounded (PutArray arr len) := by
  refine bounded_bind (bounded_writeBytes _) (fun _ => ?_)
  by_cases h : len > 0
  · cases arr with
    | none => simpa [h] using bounded_throw BBError.invalidArgument
    | some bs => simpa [h] using bounded_writeBytes ((bs.take len).map (· % 256))
  · cases arr with
    | none => simpa [h] using bounded_pure ()
    | some bs => simpa [h] using bounded_pure ()

theorem bounded_putPairs (m : List (List Nat × List Nat)) : Bounded (PutPairs m) := by
  induction m with
  | nil => exact bounded_pure ()
  | cons kv rest ih =>
      rcases kv with ⟨k, v⟩
      exact bounded_bind (bounded_putString k)
        (fun _ => bounded_bind (bounded_putString v) (fun _ => ih))

theorem bounded_putMap (m : List (List Nat × List Nat)) : Bounded (PutMap m) :=
  bounded_bind (bounded_putInt _) (fun _ => bounded_putPairs m)

theorem bounded_getByte : Bounded GetByte :=
  bounded_bind (bounded_readBytes _) (fun _ => bounded_pure _)

theorem bounded_getShort : Bounded GetShort :=
  bounded_bind (bounded_readBytes _) (fun _ => bounded_pure _)

theorem bounded_getInt : Bounded GetInt :=
  bounded_bind (bounded_readBytes _) (fun _ => bounded_pure _)

theorem bounded_getLong : Bounded GetLong :=
  bounded_bind (bounded_readBytes _)
    (fun _ => bounded_bind (bounded_readBytes _) (fun _ => bounded_pure _))

theorem bounded_getFloat : Bounded GetFloat :=
  bounded_bind (bounded_readBytes _) (fun _ => bounded_pure _)

theorem bounded_getDouble : Bounded GetDouble :=
  bounded_bind (bounded_readBytes _) (fun _ => bounded_pure _)

theorem bounded_getString : Bounded GetString := by
  refine bounded_bind bounded_getInt (fun len => ?_)
  by_cases h : len = 0
  · simpa [GetString, h] using bounded_pure ([] : List Nat)
  · simpa [GetString, h] using bounded_readBytes len

theorem bounded_getArray (maxLen : Nat) : Bounded (GetArray maxLen) := by
  refine bounded_bind bounded_getInt (fun len => ?_)
  by_cases h : len > maxLen
  · simpa [h] using bounded_throw BBError.overflow
  · by_cases h2 : len > 0
    · simpa [h, h2] using bounded_readBytes len
    · simpa [h, h2] using bounded_pure ([] : List Nat)

theorem bounded_getPairs (n : Nat) : Bounded (GetPairs n) := by
  induction n with
  | zero => exact bounded_pure _
  | succ n ih =>
      exact bounded_bind bounded_getString
        (fun _ => bounded_bind bounded_getString
          (fun _ => bounded_bind ih (fun _ => bounded_pure _)))

theorem bounded_getMap : Bounded GetMap :=
  bounded_bind bounded_getInt (fun c => bounded_getPairs c)

theorem readOnly_bind {α β : Type} {x : BBM α} {f : α → BBM β}
    (hx : ReadOnly x) (hf : ∀ a, ReadOnly (f a)) : ReadOnly (x >>= f) := by
  intro s
  have hxs := hx s
  rcases hm : x s with ⟨r, s₁⟩
  rw [hm] at hxs
  simp only at hxs
  cases r with
  | ok a =>
      have h1 : (x >>= f) s = f a s₁ := by rw [bbm_bind_apply, hm]
      rw [h1]
      exact (hf a s₁).trans hxs
  | error e =>
      have h1 : (x >>= f) s = (Except.error e, s₁) := by rw [bbm_bind_apply, hm]
      rw [h1]
      exact hxs

theorem readOnly_pure {α : Type} (a : α) : ReadOnly (pure a : BBM α) :=
  fun _ => rfl

theorem readOnly_throw {α : Type} (e : BBError) : ReadOnly (bbThrow e : BBM α) :=
  fun _ => rfl

theorem readOnly_readBytes (n : Nat) : ReadOnly (ReadBytes n) := by
  intro s
  by_cases h : s.position + n ≤ s.data.length
  · rw [ReadBytes, if_pos h]
  · rw [ReadBytes, if_neg h]

theorem readOnly_getByte : ReadOnly GetByte :=
  readOnly_bind (readOnly_readBytes _) (fun _ => readOnly_pure _)

theorem readOnly_getShort : ReadOnly GetShort :=
  readOnly_bind (readOnly_readBytes _) (fun _ => readOnly_pure _)

theorem readOnly_getInt : ReadOnly GetInt :=
  readOnly_bind (readOnly_readBytes _) (fun _ => readOnly_pure _)

theorem readOnly_getLong : ReadOnly GetLong :=
  readOnly_bind (readOnly_readBytes _)
    (fun _ => readOnly_bind (readOnly_readBytes _) (fun _ => readOnly_pure _))

theorem readOnly_getFloat : ReadOnly GetFloat :=
  readOnly_bind (readOnly_readBytes _) (fun _ => readOnly_pure _)

theorem readOnly_getDouble : ReadOnly GetDouble :=
  readOnly_bind (readOnly_readBytes _) (fun _ => readOnly_pure _)

theorem readOnly_getString : ReadOnly GetString := by
  refine readOnly_bind readOnly_getInt (fun len => ?_)
  by_cases h : len = 0
  · simpa [GetString, h] using readOnly_pure ([] : List Nat)
  · simpa [GetString, h] using readOnly_readBytes len

theorem readOnly_getArray (maxLen : Nat) : ReadOnly (GetArray maxLen) := by
  refine readOnly_bind readOnly_getInt (fun len => ?_)
  by_cases h : len > maxLen
  · simpa [h] using readOnly_throw BBError.overflow
  · by_cases h2 : len > 0
    · simpa [h, h2] using readOnly_readBytes len
    · simpa [h, h2] using readOnly_pure ([] : List Nat)

theorem readOnly_getPairs (n : Nat) : ReadOnly (GetPairs n) := by
  induction n with
  | zero => exact readOnly_pure _
  | succ n ih =>
      exact readOnly_bind readOnly_getString
        (fun _ => readOnly_bind readOnly_getString
          (fun _ => readOnly_bind ih (fun _ => readOnly_pure _)))

theorem readOnly_getMap : ReadOnly GetMap :=
  readOnly_bind readOnly_getInt (fun c => readOnly_getPairs c)

theorem failsIn_bind {α β : Type} {x : BBM α} {f : α → BBM β} {P : BBError → Prop}
    (hx : FailsIn x P) (hf : ∀ a, FailsIn (f a) P) : FailsIn (x >>= f) P := by
  intro s e
  rcases hm : x s with ⟨r, s₁⟩
  cases r with
  | ok a =>
      have h1 : (x >>= f) s = f a s₁ := by rw [bbm_bind_apply, hm]
      rw [h1]
      exact hf a s₁ e
  | error e₁ =>
      have h1 : (x >>= f) s = (Except.error e₁, s₁) := by rw [bbm_bind_apply, hm]
      rw [h1]
      intro he
      simp at he
      subst he
      exact hx s e₁ (by rw [hm])

theorem failsIn_pure {α : Type} (a : α) (P : BBError → Prop) :
    FailsIn (pure a : BBM α) P := by
  intro s e he
  simp [bbm_pure_apply] at he

theorem failsIn_throw {α : Type} (e₀ : BBError) (P : BBError → Prop) (h : P e₀) :
    FailsIn (bbThrow e₀ : BBM α) P := by
  intro s e he
  simp [bbThrow] at he
  subst he
  exact h

theorem failsIn_writeBytes (bs : List Nat) :
    FailsIn (WriteBytes bs) (· = BBError.overflow) := by
  intro s e he
  by_cases h : s.position + bs.length ≤ s.data.length
  · rw [WriteBytes, if_pos h] at he
    simp at he
  · rw [WriteBytes, if_neg h] at he
    simpa using he.symm

theorem failsIn_readBytes (n : Nat) :
    FailsIn (ReadBytes n) (· = BBError.underflow) := by
  intro s e he
  by_cases h : s.position + n ≤ s.data.length
  · rw [ReadBytes, if_pos h] at he
    simp at he
  · rw [ReadBytes, if_neg h] at he
    simpa using he.symm

theorem failsIn_putLong (n : Nat) : FailsIn (PutLong n) (· = BBError.overflow) :=
  failsIn_bind (failsIn_writeBytes _) (fun _ => failsIn_writeBytes _)

theorem failsIn_putString (str : List Nat) :
    FailsIn (PutString str) (· = BBError.overflow) := by
  refine failsIn_bind (failsIn_writeBytes _) (fun _ => ?_)
  by_cases h : str.length > 0
  · simpa [PutString, h] using failsIn_writeBytes (str.map (· % 256))
  · simpa [PutString, h] using failsIn_pure () _

theorem failsIn_putPairs (m : List (List Nat × List Nat)) :
    FailsIn (PutPairs m) (· = BBError.overflow) := by
  induction m with
  | nil => exact failsIn_pure _ _
  | cons kv rest ih =>
      rcases kv with ⟨k, v⟩
      exact failsIn_bind (failsIn_putString k)
        (fun _ => failsIn_bind (failsIn_putString v) (fun _ => ih))

theorem failsIn_putMap (m : List (List Nat × List Nat)) :
    FailsIn (PutMap m) (· = BBError.overflow) :=
  failsIn_bind (failsIn_writeBytes _) (fun _ => failsIn_putPairs m)

theorem failsIn_putArray (bs : List Nat) (len : Nat) :
    FailsIn (PutArray (some bs) len) (· = BBError.overflow) := by
  refine failsIn_bind (failsIn_writeBytes _) (fun _ => ?_)
  by_cases h : len > 0
  · simpa [h] using failsIn_writeBytes ((bs.take len).map (· % 256))
  · simpa [h] using failsIn_pure () _

theorem failsIn_getByte : FailsIn GetByte (· = BBError.underflow) :=
  failsIn_bind (failsIn_readBytes _) (fun _ => failsIn_pure _ _)

theorem failsIn_getShort : FailsIn GetShort (· = BBError.underflow) :=
  failsIn_bind (failsIn_readBytes _) (fun _ => failsIn_pure _ _)

theorem failsIn_getInt : FailsIn GetInt (· = BBError.underflow) :=
  failsIn_bind (failsIn_readBytes _) (fun _ => failsIn_pure _ _)

theorem failsIn_getLong : FailsIn GetLong (· = BBError.underflow) :=
  failsIn_bind (failsIn_readBytes _)
    (fun _ => failsIn_bind (failsIn_readBytes _) (fun _ => failsIn_pure _ _))

theorem failsIn_getFloat : FailsIn GetFloat (· = BBError.underflow) :=
  failsIn_bind (failsIn_readBytes _) (fun _ => failsIn_pure _ _)

theorem failsIn_getDouble : FailsIn GetDouble (· = BBError.underflow) :=
  failsIn_bind (failsIn_readBytes _) (fun _ => failsIn_pure _ _)

theorem failsIn_getString : FailsIn GetString (· = BBError.underflow) := by
  refine failsIn_bind failsIn_getInt (fun len => ?_)
  by_cases h : len = 0
  · simpa [GetString, h] using failsIn_pure ([] : List Nat) _
  · simpa [GetString, h] using failsIn_readBytes len

theorem failsIn_getPairs (n : Nat) : FailsIn (GetPairs n) (· = BBError.underflow) := by
  induction n with
  | zero => exact failsIn_pure _ _
  | succ n ih =>
      exact failsIn_bind failsIn_getString
        (fun _ => failsIn_bind failsIn_getString
          (fun _ => failsIn_bind ih (fun _ => failsIn_pure _ _)))

theorem failsIn_getMap : FailsIn GetMap (· = BBError.underflow) :=
  failsIn_bind failsIn_getInt (fun c => failsIn_getPairs c)

theorem failsIn_getArray (maxLen : Nat) :
    FailsIn (GetArray maxLen)
      (fun e => e = BBError.underflow ∨ e = BBError.overflow) := by
  refine failsIn_bind
    (fun s e he => Or.inl (failsIn_getInt s e he)) (fun len => ?_)
  by_cases h : len > maxLen
  · simpa [h] using failsIn_throw BBError.overflow _ (Or.inr rfl)
  · by_cases h2 : len > 0
    · simpa [h, h2] using
        (fun s e he => Or.inl (failsIn_readBytes len s e he) :
          FailsIn (ReadBytes len) _)
    · simpa [h, h2] using failsIn_pure ([] : List Nat) _

end ByteBuffer

theorem length_chanHdr (routineId : Nat) : (chanHdr routineId).length = 10 := by
  simp [chanHdr, length_beBytes]

theorem channelScratch_length : channelScratch.length = 8192 := by
  rw [channelScratch, List.length_replicate]
  norm_num [Protocol.MAX_PACKET_SIZE]

attribute [irreducible] channelScratch

set_option maxRecDepth 4000 in
open ByteBuffer in
/-- The header sequence of ExecuteRPC evaluated on the scratch buffer:
it writes the ten header bytes and reports cursor 10. -/
theorem channelHeaderEval (routineId : Nat) :
    (do PutByte Protocol.START_BYTE
        PutInt 0
        PutInt routineId
        PutByte Protocol.VERSION
        Position : BBM Nat) ⟨channelScratch, 0⟩ =
      (Except.ok 10, ⟨listWrite channelScratch 0 (chanHdr routineId), 10⟩) := by
  have s1 : PutByte Protocol.START_BYTE ⟨channelScratch, 0⟩ =
      (Except.ok (), ⟨listWrite channelScratch 0 [Protocol.START_BYTE], 1⟩) := by
    simpa [listWrite_nil] using
      writeStep channelScratch [] [Protocol.START_BYTE] 1
        (PutByte Protocol.START_BYTE) rfl
        (fun d p hp => PutByte_ok2 d _ p (by norm_num [Protocol.START_BYTE]) hp)
        (by rw [channelScratch_length]; norm_num)
  have s2 : PutInt 0 ⟨listWrite channelScratch 0 [Protocol.START_BYTE], 1⟩ =
      (Except.ok (),
        ⟨listWrite channelScratch 0 ([Protocol.START_BYTE] ++ beBytes 4 0), 5⟩) := by
    simpa using
      writeStep channelScratch [Protocol.START_BYTE] (beBytes 4 0) 4 (PutInt 0)
        (length_beBytes _ _) (fun d p hp => PutInt_ok d 0 p hp)
        (by rw [channelScratch_length]; norm_num)
  have s3 : PutInt routineId
      ⟨listWrite channelScratch 0 ([Protocol.START_BYTE] ++ beBytes 4 0), 5⟩ =
      (Except.ok (),
        ⟨listWrite channelScratch 0
          ([Protocol.START_BYTE] ++ beBytes 4 0 ++ beBytes 4 routineId), 9⟩) := by
    simpa [length_beBytes] using
      writeStep channelScratch ([Protocol.START_BYTE] ++ beBytes 4 0)
        (beBytes 4 routineId) 4 (PutInt routineId)
        (length_beBytes _ _) (fun d p hp => PutInt_ok d routineId p hp)
        (by rw [channelScratch_length]; simp [length_beBytes])
  have s4 : PutByte Protocol.VERSION
      ⟨listWrite channelScratch 0
        ([Protocol.START_BYTE] ++ beBytes 4 0 ++ beBytes 4 routineId), 9⟩ =
      (Except.ok (), ⟨listWrite channelScratch 0 (chanHdr routineId), 10⟩) := by
    simpa [length_beBytes, chanHdr] using
      writeStep channelScratch
        ([Protocol.START_BYTE] ++ beBytes 4 0 ++ beBytes 4 routineId)
        [Protocol.VERSION] 1 (PutByte Protocol.VERSION) rfl
        (fun d p hp => PutByte_ok2 d _ p (by norm_num [Protocol.VERSION]) hp)
        (by rw [channelScratch_length]; simp [length_beBytes])
  simp only [bbm_bind_apply, s1, s2, s3, s4, Position]

set_option maxRecDepth 4000 in
open ByteBuffer in
/-- The trailer sequence of ExecuteRPC (END byte, read cursor, rewind
to offset 1, patch the length) evaluated after header and payload have
been written. -/
theorem channelTailEval (routineId : Nat) (payload : List Nat)
    (hlen : payload.length ≤ 8181) :
    (do PutByte Protocol.END_BYTE
        let flen ← Position
        SetPosition 1
        PutInt flen
        pure flen : BBM Nat)
      ⟨listWrite channelScratch 0 (chanHdr routineId ++ payload),
        10 + payload.length⟩ =
    (Except.ok (11 + payload.length),
      ⟨listWrite channelScratch 0
        (chanFrame routineId (11 + payload.length) payload), 5⟩) := by
  have hA : (chanHdr routineId ++ payload).length = 10 + payload.length := by
    simp [length_chanHdr]
  have sE := writeStep channelScratch (chanHdr routineId ++ payload)
    [Protocol.END_BYTE] 1 (PutByte Protocol.END_BYTE) rfl
    (fun d p hp => PutByte_ok2 d _ p (by norm_num [Protocol.END_BYTE]) hp)
    (by rw [channelScratch_length, hA]; omega)
  rw [hA, show 10 + payload.length + 1 = 11 + payload.length from by omega] at sE
  have hD1len : (listWrite channelScratch 0
      ((chanHdr routineId ++ payload) ++ [Protocol.END_BYTE])).length = 8192 := by
    rw [length_listWrite _ _ _ (by
        rw [channelScratch_length]
        simp only [List.length_append, List.length_singleton, length_chanHdr]
        omega),
      channelScratch_length]
  have hset : SetPosition 1
      ⟨listWrite channelScratch 0
        ((chanHdr routineId ++ payload) ++ [Protocol.END_BYTE]),
        11 + payload.length⟩ =
      (Except.ok (), ⟨listWrite channelScratch 0
        ((chanHdr routineId ++ payload) ++ [Protocol.END_BYTE]), 1⟩) :=
    SetPosition_ok _ _ _ (by rw [hD1len]; omega)
  have hput := PutInt_ok
    (listWrite channelScratch 0 ((chanHdr routineId ++ payload) ++ [Protocol.END_BYTE]))
    (11 + payload.length) 1 (by rw [hD1len]; omega)
  have hshape : (chanHdr routineId ++ payload) ++ [Protocol.END_BYTE] =
      [Protocol.START_BYTE] ++ (beBytes 4 0 ++
        (beBytes 4 routineId ++ ([Protocol.VERSION] ++
          (payload ++ [Protocol.END_BYTE])))) := by
    simp [chanHdr, List.append_assoc]
  have hpatch : listWrite (listWrite channelScratch 0
      ((chanHdr routineId ++ payload) ++ [Protocol.END_BYTE])) 1
      (beBytes 4 (11 + payload.length)) =
      listWrite channelScratch 0
        (chanFrame routineId (11 + payload.length) payload) := by
    rw [hshape]
    have := listWrite_patch0 channelScratch [Protocol.START_BYTE] (beBytes 4 0)
      (beBytes 4 (11 + payload.length))
      (beBytes 4 routineId ++ ([Protocol.VERSION] ++ (payload ++ [Protocol.END_BYTE])))
      (by rw [length_beBytes, length_beBytes])
    simp only [List.length_singleton] at this
    rw [this]
    simp [chanFrame, List.append_assoc]
  simp only [bbm_bind_apply, sE, Position, hset, hput, hpatch, bbm_pure_apply]

theorem length_chanFrame (routineId flen : Nat) (payload : List Nat) :
    (chanFrame routineId flen payload).length = 11 + payload.length := by
  simp [chanFrame, length_beBytes]
  omega

set_option maxRecDepth 4000 in
/-- ExecuteRPC encodes one complete frame when the payload fits: the
length field is patched to the exact total frame length 11 + payload
bytes, and the bytes handed to SendData are exactly that frame. -/
theorem ChannelBuildFrame_ok (routineId : Nat) (payload : List Nat)
    (h : payload.length ≤ Protocol.MAX_PACKET_SIZE - 11) :
    ChannelBuildFrame routineId payload =
      some (chanFrame routineId (11 + payload.length) payload) := by
  have hlen : payload.length ≤ 8181 := by
    norm_num [Protocol.MAX_PACKET_SIZE] at h
    omega
  have hguard : ¬ (payload.length > 0 ∧
      10 + payload.length ≥ Protocol.MAX_PACKET_SIZE) := by
    norm_num [Protocol.MAX_PACKET_SIZE]
    omega
  have hflen := length_chanFrame routineId (11 + payload.length) payload
  have htake : (listWrite channelScratch 0
      (chanFrame routineId (11 + payload.length) payload)).take
        (11 + payload.length) =
      chanFrame routineId (11 + payload.length) payload := by
    rw [listWrite_zero]
    calc (chanFrame routineId (11 + payload.length) payload ++
        channelScratch.drop
          (chanFrame routineId (11 + payload.length) payload).length).take
          (11 + payload.length) =
        (chanFrame routineId (11 + payload.length) payload ++
        channelScratch.drop
          (chanFrame routineId (11 + payload.length) payload).length).take
          (chanFrame routineId (11 + payload.length) payload).length := by
          rw [hflen]
      _ = chanFrame routineId (11 + payload.length) payload := List.take_left _ _
  unfold ChannelBuildFrame
  rw [channelHeaderEval]
  by_cases hp : payload.length > 0
  · have hfuse := listWrite_fuse channelScratch (chanHdr routineId) payload 0
      (by rw [channelScratch_length, length_chanHdr]; omega)
    rw [Nat.zero_add, length_chanHdr] at hfuse
    have htail := channelTailEval routineId payload hlen
    simp only [chanStage2, if_neg hguard, if_pos hp, hfuse, htail, chanStage3, htake]
  · have htail := channelTailEval routineId payload hlen
    have hpl : payload = [] := List.length_eq_zero.mp (by omega)
    subst hpl
    simp only [List.length_nil, List.append_nil, Nat.add_zero] at htail ⊢
    simp only [chanStage2, if_neg hguard, if_neg hp, htail, chanStage3]
    simp only [List.length_nil, Nat.add_zero] at htake
    rw [htake]

/-- ExecuteRPC aborts, producing no frame, when the payload cannot fit
the 8 KiB frame buffer. -/
theorem ChannelBuildFrame_too_large (routineId : Nat) (payload : List Nat)
    (h : Protocol.MAX_PACKET_SIZE - 11 < payload.length) :
    ChannelBuildFrame routineId payload = none := by
  have hguard : payload.length > 0 ∧
      10 + payload.length ≥ Protocol.MAX_PACKET_SIZE := by
    norm_num [Protocol.MAX_PACKET_SIZE] at h ⊢
    omega
  unfold ChannelBuildFrame
  rw [channelHeaderEval]
  simp only [chanStage2, if_pos hguard]

open ByteBuffer in
theorem length_calcRespFrame (status bits : Nat) (err : List Nat) :
    (calcRespFrame status bits err).length = 24 + err.length := by
  simp [calcRespFrame, length_beBytes, length_leBytes, length_strEncode]
  omega

set_option maxRecDepth 4000 in
open ByteBuffer in
/-- CalculatorService::Execute builds exactly one well-formed response
frame whenever the output buffer can hold it, its TOTAL_LENGTH patched
to the exact frame byte count. -/
theorem BuildCalcResponse_ok (status bits : Nat) (err : List Nat) (cap : Nat)
    (hcap : 24 + err.length ≤ cap) :
    BuildCalcResponse status bits err cap = some (calcRespFrame status bits err) := by
  have hC : (List.replicate cap 0).length = cap := List.length_replicate _ _
  have s1 : PutByte Protocol.START_BYTE ⟨List.replicate cap 0, 0⟩ =
      (Except.ok (),
        ⟨listWrite (List.replicate cap 0) 0 [Protocol.START_BYTE], 1⟩) := by
    simpa [listWrite_nil] using
      writeStep (List.replicate cap 0) [] [Protocol.START_BYTE] 1
        (PutByte Protocol.START_BYTE) rfl
        (fun d p hp => PutByte_ok2 d _ p (by norm_num [Protocol.START_BYTE]) hp)
        (by simp only [hC, List.length_nil, List.length_singleton]; omega)
  have s2 : PutInt 0 ⟨listWrite (List.replicate cap 0) 0 [Protocol.START_BYTE], 1⟩ =
      (Except.ok (), ⟨listWrite (List.replicate cap 0) 0
        ([Protocol.START_BYTE] ++ beBytes 4 0), 5⟩) := by
    simpa using
      writeStep (List.replicate cap 0) [Protocol.START_BYTE] (beBytes 4 0) 4
        (PutInt 0) (length_beBytes _ _) (fun d p hp => PutInt_ok d 0 p hp)
        (by simp only [hC, List.length_nil, List.length_singleton]; omega)
  have s3 : PutInt calcResponseRoutineId
      ⟨listWrite (List.replicate cap 0) 0 ([Protocol.START_BYTE] ++ beBytes 4 0), 5⟩ =
      (Except.ok (), ⟨listWrite (List.replicate cap 0) 0
        ([Protocol.START_BYTE] ++ beBytes 4 0 ++ beBytes 4 calcResponseRoutineId),
        9⟩) := by
    simpa [length_beBytes] using
      writeStep (List.replicate cap 0) ([Protocol.START_BYTE] ++ beBytes 4 0)
        (beBytes 4 calcResponseRoutineId) 4 (PutInt calcResponseRoutineId)
        (length_beBytes _ _) (fun d p hp => PutInt_ok d _ p hp)
        (by simp only [hC, List.length_singleton, List.length_append, length_beBytes]; omega)
  have s4 : PutByte Protocol.VERSION
      ⟨listWrite (List.replicate cap 0) 0
        ([Protocol.START_BYTE] ++ beBytes 4 0 ++ beBytes 4 calcResponseRoutineId),
        9⟩ =
      (Except.ok (), ⟨listWrite (List.replicate cap 0) 0
        ([Protocol.START_BYTE] ++ beBytes 4 0 ++ beBytes 4 calcResponseRoutineId ++
          [Protocol.VERSION]), 10⟩) := by
    simpa [length_beBytes] using
      writeStep (List.replicate cap 0)
        ([Protocol.START_BYTE] ++ beBytes 4 0 ++ beBytes 4 calcResponseRoutineId)
        [Protocol.VERSION] 1 (PutByte Protocol.VERSION) rfl
        (fun d p hp => PutByte_ok2 d _ p (by norm_num [Protocol.VERSION]) hp)
        (by simp only [hC, List.length_singleton, List.length_append, length_beBytes]; omega)
  have s5 : PutByte status
      ⟨listWrite (List.replicate cap 0) 0
        ([Protocol.START_BYTE] ++ beBytes 4 0 ++ beBytes 4 calcResponseRoutineId ++
          [Protocol.VERSION]), 10⟩ =
      (Except.ok (), ⟨listWrite (List.replicate cap 0) 0
        ([Protocol.START_BYTE] ++ beBytes 4 0 ++ beBytes 4 calcResponseRoutineId ++
          [Protocol.VERSION] ++ [status % 256]), 11⟩) := by
    simpa [length_beBytes] using
      writeStep (List.replicate cap 0)
        ([Protocol.START_BYTE] ++ beBytes 4 0 ++ beBytes 4 calcResponseRoutineId ++
          [Protocol.VERSION])
        [status % 256] 1 (PutByte status) rfl
        (fun d p hp => PutByte_ok d status p hp)
        (by simp only [hC, List.length_singleton, List.length_append, length_beBytes]; omega)
  have s6 : PutDouble bits
      ⟨listWrite (List.replicate cap 0) 0
        ([Protocol.START_BYTE] ++ beBytes 4 0 ++ beBytes 4 calcResponseRoutineId ++
          [Protocol.VERSION] ++ [status % 256]), 11⟩ =
      (Except.ok (), ⟨listWrite (List.replicate cap 0) 0
        ([Protocol.START_BYTE] ++ beBytes 4 0 ++ beBytes 4 calcResponseRoutineId ++
          [Protocol.VERSION] ++ [status % 256] ++ leBytes 8 bits), 19⟩) := by
    simpa [length_beBytes] using
      writeStep (List.replicate cap 0)
        ([Protocol.START_BYTE] ++ beBytes 4 0 ++ beBytes 4 calcResponseRoutineId ++
          [Protocol.VERSION] ++ [status % 256])
        (leBytes 8 bits) 8 (PutDouble bits) (length_leBytes _ _)
        (fun d p hp => PutDouble_ok d bits p hp)
        (by simp only [hC, List.length_singleton, List.length_append, length_beBytes]; omega)
  have s7 : PutString err
      ⟨listWrite (List.replicate cap 0) 0
        ([Protocol.START_BYTE] ++ beBytes 4 0 ++ beBytes 4 calcResponseRoutineId ++
          [Protocol.VERSION] ++ [status % 256] ++ leBytes 8 bits), 19⟩ =
      (Except.ok (), ⟨listWrite (List.replicate cap 0) 0
        ([Protocol.START_BYTE] ++ beBytes 4 0 ++ beBytes 4 calcResponseRoutineId ++
          [Protocol.VERSION] ++ [status % 256] ++ leBytes 8 bits ++ strEncode err),
        23 + err.length⟩) := by
    have h := writeStep (List.replicate cap 0)
      ([Protocol.START_BYTE] ++ beBytes 4 0 ++ beBytes 4 calcResponseRoutineId ++
        [Protocol.VERSION] ++ [status % 256] ++ leBytes 8 bits)
      (strEncode err) (4 + err.length) (PutString err) (length_strEncode _)
      (fun d p hp => PutString_ok2 d err p hp)
      (by simp only [hC, List.length_singleton, List.length_append, length_beBytes, length_leBytes]; omega)
    have hA : ([Protocol.START_BYTE] ++ beBytes 4 0 ++
        beBytes 4 calcResponseRoutineId ++ [Protocol.VERSION] ++ [status % 256] ++
        leBytes 8 bits).length = 19 := by
      simp [length_beBytes, length_leBytes]
    rw [hA, show 19 + (4 + err.length) = 23 + err.length from by omega] at h
    exact h
  have s8 : PutByte Protocol.END_BYTE
      ⟨listWrite (List.replicate cap 0) 0
        ([Protocol.START_BYTE] ++ beBytes 4 0 ++ beBytes 4 calcResponseRoutineId ++
          [Protocol.VERSION] ++ [status % 256] ++ leBytes 8 bits ++ strEncode err),
        23 + err.length⟩ =
      (Except.ok (), ⟨listWrite (List.replicate cap 0) 0
        ([Protocol.START_BYTE] ++ beBytes 4 0 ++ beBytes 4 calcResponseRoutineId ++
          [Protocol.VERSION] ++ [status % 256] ++ leBytes 8 bits ++ strEncode err ++
          [Protocol.END_BYTE]), 24 + err.length⟩) := by
    have h := writeStep (List.replicate cap 0)
      ([Protocol.START_BYTE] ++ beBytes 4 0 ++ beBytes 4 calcResponseRoutineId ++
        [Protocol.VERSION] ++ [status % 256] ++ leBytes 8 bits ++ strEncode err)
      [Protocol.END_BYTE] 1 (PutByte Protocol.END_BYTE) rfl
      (fun d p hp => PutByte_ok2 d _ p (by norm_num [Protocol.END_BYTE]) hp)
      (by simp only [hC, List.length_singleton, List.length_append, length_beBytes, length_leBytes, length_strEncode]; omega)
    have hA : ([Protocol.START_BYTE] ++ beBytes 4 0 ++
        beBytes 4 calcResponseRoutineId ++ [Protocol.VERSION] ++ [status % 256] ++
        leBytes 8 bits ++ strEncode err).length = 23 + err.length := by
      simp [length_beBytes, length_leBytes, length_strEncode]
      omega
    rw [hA, show 23 + err.length + 1 = 24 + err.length from by omega] at h
    exact h
  have hD1len : (listWrite (List.replicate cap 0) 0
      ([Protocol.START_BYTE] ++ beBytes 4 0 ++ beBytes 4 calcResponseRoutineId ++
        [Protocol.VERSION] ++ [status % 256] ++ leBytes 8 bits ++ strEncode err ++
        [Protocol.END_BYTE])).length = cap := by
    rw [length_listWrite _ _ _ (by
        simp only [hC, List.length_singleton, List.length_append, length_beBytes,
          length_leBytes, length_strEncode]
        omega), hC]
  have hset : SetPosition 1
      ⟨listWrite (List.replicate cap 0) 0
        ([Protocol.START_BYTE] ++ beBytes 4 0 ++ beBytes 4 calcResponseRoutineId ++
          [Protocol.VERSION] ++ [status % 256] ++ leBytes 8 bits ++ strEncode err ++
          [Protocol.END_BYTE]), 24 + err.length⟩ =
      (Except.ok (), ⟨listWrite (List.replicate cap 0) 0
        ([Protocol.START_BYTE] ++ beBytes 4 0 ++ beBytes 4 calcResponseRoutineId ++
          [Protocol.VERSION] ++ [status % 256] ++ leBytes 8 bits ++ strEncode err ++
          [Protocol.END_BYTE]), 1⟩) :=
    SetPosition_ok _ _ _ (by rw [hD1len]; omega)
  have hput := PutInt_ok
    (listWrite (List.replicate cap 0) 0
      ([Protocol.START_BYTE] ++ beBytes 4 0 ++ beBytes 4 calcResponseRoutineId ++
        [Protocol.VERSION] ++ [status % 256] ++ leBytes 8 bits ++ strEncode err ++
        [Protocol.END_BYTE]))
    (24 + err.length) 1 (by rw [hD1len]; omega)
  have hpatch : listWrite (listWrite (List.replicate cap 0) 0
      ([Protocol.START_BYTE] ++ beBytes 4 0 ++ beBytes 4 calcResponseRoutineId ++
        [Protocol.VERSION] ++ [status % 256] ++ leBytes 8 bits ++ strEncode err ++
        [Protocol.END_BYTE])) 1 (beBytes 4 (24 + err.length)) =
      listWrite (List.replicate cap 0) 0 (calcRespFrame status bits err) := by
    have hshape : [Protocol.START_BYTE] ++ beBytes 4 0 ++
        beBytes 4 calcResponseRoutineId ++ [Protocol.VERSION] ++ [status % 256] ++
        leBytes 8 bits ++ strEncode err ++ [Protocol.END_BYTE] =
        [Protocol.START_BYTE] ++ (beBytes 4 0 ++
          (beBytes 4 calcResponseRoutineId ++ ([Protocol.VERSION] ++
            ([status % 256] ++ (leBytes 8 bits ++
              (strEncode err ++ [Protocol.END_BYTE])))))) := by
      simp [List.append_assoc]
    rw [hshape]
    have := listWrite_patch0 (List.replicate cap 0) [Protocol.START_BYTE]
      (beBytes 4 0) (beBytes 4 (24 + err.length))
      (beBytes 4 calcResponseRoutineId ++ ([Protocol.VERSION] ++
        ([status % 256] ++ (leBytes 8 bits ++ (strEncode err ++ [Protocol.END_BYTE])))))
      (by rw [length_beBytes, length_beBytes])
    simp only [List.length_singleton] at this
    rw [this]
    simp [calcRespFrame, List.append_assoc]
  have htake : (listWrite (List.replicate cap 0) 0
      (calcRespFrame status bits err)).take (24 + err.length) =
      calcRespFrame status bits err := by
    have hflen := length_calcRespFrame status bits err
    rw [listWrite_zero]
    calc (calcRespFrame status bits err ++
        (List.replicate cap 0).drop (calcRespFrame status bits err).length).take
          (24 + err.length) =
        (calcRespFrame status bits err ++
        (List.replicate cap 0).drop (calcRespFrame status bits err).length).take
          (calcRespFrame status bits err).length := by rw [hflen]
      _ = calcRespFrame status bits err := List.take_left _ _
  unfold BuildCalcResponse
  simp only [bbm_bind_apply, s1, s2, s3, s4, s5, s6, s7, s8, Position, hset, hput,
    hpatch, bbm_pure_apply, calcStage2, htake]

open ByteBuffer in
/-- ProcessClientRequest on a frame of at least eleven bytes, fully
destructured: the START and VERSION checks gate the dispatch, the
TOTAL_LENGTH bytes b1-b4 are read but never compared with anything,
and the payload span is the bytes after VERSION minus the final END
position. -/
theorem ProcessClientRequest_eval (b0 b1 b2 b3 b4 b5 b6 b7 b8 b9 : Nat)
    (rest : List Nat) (hr : rest ≠ []) :
    ProcessClientRequest
        (b0 :: b1 :: b2 :: b3 :: b4 :: b5 :: b6 :: b7 :: b8 :: b9 :: rest) =
      if b0 ≠ Protocol.START_BYTE then none
      else if b9 ≠ Protocol.VERSION then none
      else some (beDecode [b5, b6, b7, b8], rest.take (rest.length - 1)) := by
  have hrl : 1 ≤ rest.length := by
    cases rest with
    | nil => simp at hr
    | cons x xs => simp
  have hlen : (b0 :: b1 :: b2 :: b3 :: b4 :: b5 :: b6 :: b7 :: b8 :: b9 ::
      rest).length = 10 + rest.length := by
    simp
    omega
  have hmin : ¬ ((b0 :: b1 :: b2 :: b3 :: b4 :: b5 :: b6 :: b7 :: b8 :: b9 ::
      rest).length < Protocol.GetMinFrameSize) := by
    rw [hlen]
    norm_num [Protocol.GetMinFrameSize]
    omega
  have h0 : GetByte ⟨b0 :: b1 :: b2 :: b3 :: b4 :: b5 :: b6 :: b7 :: b8 :: b9 ::
      rest, 0⟩ = (Except.ok b0, ⟨b0 :: b1 :: b2 :: b3 :: b4 :: b5 :: b6 :: b7 ::
      b8 :: b9 :: rest, 1⟩) :=
    GetByte_region _ (b1 :: b2 :: b3 :: b4 :: b5 :: b6 :: b7 :: b8 :: b9 :: rest)
      b0 0 (by simp) (by simp)
  have h1 : GetInt ⟨b0 :: b1 :: b2 :: b3 :: b4 :: b5 :: b6 :: b7 :: b8 :: b9 ::
      rest, 1⟩ = (Except.ok (beDecode [b1, b2, b3, b4]), ⟨b0 :: b1 :: b2 :: b3 ::
      b4 :: b5 :: b6 :: b7 :: b8 :: b9 :: rest, 5⟩) := by
    have h := ReadBytes_region
      (b0 :: b1 :: b2 :: b3 :: b4 :: b5 :: b6 :: b7 :: b8 :: b9 :: rest)
      [b1, b2, b3, b4] (b5 :: b6 :: b7 :: b8 :: b9 :: rest) 1 (by simp) (by simp)
    simp only [List.length_cons, List.length_nil] at h
    simp [GetInt, bbm_bind_apply, h, bbm_pure_apply]
  have h2 : GetInt ⟨b0 :: b1 :: b2 :: b3 :: b4 :: b5 :: b6 :: b7 :: b8 :: b9 ::
      rest, 5⟩ = (Except.ok (beDecode [b5, b6, b7, b8]), ⟨b0 :: b1 :: b2 :: b3 ::
      b4 :: b5 :: b6 :: b7 :: b8 :: b9 :: rest, 9⟩) := by
    have h := ReadBytes_region
      (b0 :: b1 :: b2 :: b3 :: b4 :: b5 :: b6 :: b7 :: b8 :: b9 :: rest)
      [b5, b6, b7, b8] (b9 :: rest) 5 (by simp) (by simp)
    simp only [List.length_cons, List.length_nil] at h
    simp [GetInt, bbm_bind_apply, h, bbm_pure_apply]
  have h3 : GetByte ⟨b0 :: b1 :: b2 :: b3 :: b4 :: b5 :: b6 :: b7 :: b8 :: b9 ::
      rest, 9⟩ = (Except.ok b9, ⟨b0 :: b1 :: b2 :: b3 :: b4 :: b5 :: b6 :: b7 ::
      b8 :: b9 :: rest, 10⟩) :=
    GetByte_region _ rest b9 9 (by simp) (by simp)
  simp only [ProcessClientRequest, if_neg hmin, h0, h1, h2, h3]
  by_cases hb0 : b0 = Protocol.START_BYTE
  · by_cases hb9 : b9 = Protocol.VERSION
    · simp [hb0, hb9, hlen]
    · simp [hb0, hb9]
  · simp [hb0]

/-- regFind on a registry extended with a fresh key finds the new
service. -/
theorem regFind_append_self (reg : Registry) (id : Nat) (svc : Service)
    (h : regFind reg id = none) : regFind (reg ++ [(id, svc)]) id = some svc := by
  induction reg with
  | nil => simp [regFind]
  | cons kv rest ih =>
      rcases kv with ⟨k, s⟩
      by_cases hk : k = id
      · simp [regFind, hk] at h
      · simp only [regFind, List.cons_append, if_neg hk] at h ⊢
        exact ih h

/-! The claims. -/

/-- C1: the spec requires a frame whose declared TOTAL_LENGTH does not
match the bytes delimited by START/END to be rejected and never
dispatched.  The server reads the length field into frame_len and
discards it without any comparison (behind a comment asserting it was
validated elsewhere), so a 12-byte frame declaring length 999 is
dispatched to the handler with routine id 0x1000 and payload 0x42. -/
theorem C1_length_mismatch_dispatched :
    ProcessClientRequest
        [126, 0, 0, 3, 231, 0, 0, 16, 0, 1, 66, 127] = some (4096, [66]) ∧
    beDecode [0, 0, 3, 231] = 999 ∧
    [126, 0, 0, 3, 231, 0, 0, 16, 0, 1, 66, 127].length = 12 ∧
    (999 : Nat) ≠ 12 :=
  ⟨by decide, by decide, by decide, by decide⟩

open ByteBuffer in
/-- C2 counterexample: the claim says a Put whose write would exceed
capacity writes nothing observable (buffer contents and cursor
unchanged).  PutLong into a five-byte buffer fails with overflow but
has already written its high four bytes and advanced the cursor. -/
theorem C2_putLong_counterexample :
    PutLong 18446744073709551615 ⟨[0, 0, 0, 0, 0], 0⟩ =
      (Except.error BBError.overflow, ⟨[255, 255, 255, 255, 0], 4⟩) ∧
    (⟨[255, 255, 255, 255, 0], 4⟩ : ByteBuffer) ≠ ⟨[0, 0, 0, 0, 0], 0⟩ := by
  exact ⟨rfl, by decide⟩

open ByteBuffer in
/-- C2 (amended): single-write Put operations fail atomically with an
overflow condition; the composite Put operations also fail only with
overflow (given non-null arguments) but may leave earlier component
writes in place, never writing outside the region or moving the cursor
beyond it; every Get operation is read-only, fails with an underflow
condition when too few bytes remain (GetArray alternatively with
overflow when the declared length exceeds the destination capacity),
and never advances the cursor past the available data. -/
theorem C2_boundary_behavior :
    (∀ (d : List Nat) (p b : Nat), d.length < p + 1 →
      PutByte b ⟨d, p⟩ = (Except.error BBError.overflow, ⟨d, p⟩)) ∧
    (∀ (d : List Nat) (p n : Nat), d.length < p + 2 →
      PutShort n ⟨d, p⟩ = (Except.error BBError.overflow, ⟨d, p⟩)) ∧
    (∀ (d : List Nat) (p n : Nat), d.length < p + 4 →
      PutInt n ⟨d, p⟩ = (Except.error BBError.overflow, ⟨d, p⟩)) ∧
    (∀ (d : List Nat) (p bits : Nat), d.length < p + 4 →
      PutFloat bits ⟨d, p⟩ = (Except.error BBError.overflow, ⟨d, p⟩)) ∧
    (∀ (d : List Nat) (p bits : Nat), d.length < p + 8 →
      PutDouble bits ⟨d, p⟩ = (Except.error BBError.overflow, ⟨d, p⟩)) ∧
    (∀ n, FailsIn (PutLong n) (· = BBError.overflow) ∧ Bounded (PutLong n)) ∧
    (∀ str, FailsIn (PutString str) (· = BBError.overflow) ∧
      Bounded (PutString str)) ∧
    (∀ m, FailsIn (PutMap m) (· = BBError.overflow) ∧ Bounded (PutMap m)) ∧
    (∀ bs len, FailsIn (PutArray (some bs) len) (· = BBError.overflow) ∧
      Bounded (PutArray (some bs) len)) ∧
    (ReadOnly GetByte ∧ Bounded GetByte ∧
      FailsIn GetByte (· = BBError.underflow)) ∧
    (ReadOnly GetShort ∧ Bounded GetShort ∧
      FailsIn GetShort (· = BBError.underflow)) ∧
    (ReadOnly GetInt ∧ Bounded GetInt ∧
      FailsIn GetInt (· = BBError.underflow)) ∧
    (ReadOnly GetLong ∧ Bounded GetLong ∧
      FailsIn GetLong (· = BBError.underflow)) ∧
    (ReadOnly GetFloat ∧ Bounded GetFloat ∧
      FailsIn GetFloat (· = BBError.underflow)) ∧
    (ReadOnly GetDouble ∧ Bounded GetDouble ∧
      FailsIn GetDouble (· = BBError.underflow)) ∧
    (ReadOnly GetString ∧ Bounded GetString ∧
      FailsIn GetString (· = BBError.underflow)) ∧
    (ReadOnly GetMap ∧ Bounded GetMap ∧
      FailsIn GetMap (· = BBError.underflow)) ∧
    (∀ maxLen, ReadOnly (GetArray maxLen) ∧ Bounded (GetArray maxLen) ∧
      FailsIn (GetArray maxLen)
        (fun e => e = BBError.underflow ∨ e = BBError.overflow)) := by
  refine ⟨?_, ?_, ?_, ?_, ?_,
    fun n => ⟨failsIn_putLong n, bounded_putLong n⟩,
    fun str => ⟨failsIn_putString str, bounded_putString str⟩,
    fun m => ⟨failsIn_putMap m, bounded_putMap m⟩,
    fun bs len => ⟨failsIn_putArray bs len, bounded_putArray (some bs) len⟩,
    ⟨readOnly_getByte, bounded_getByte, failsIn_getByte⟩,
    ⟨readOnly_getShort, bounded_getShort, failsIn_getShort⟩,
    ⟨readOnly_getInt, bounded_getInt, failsIn_getInt⟩,
    ⟨readOnly_getLong, bounded_getLong, failsIn_getLong⟩,
    ⟨readOnly_getFloat, bounded_getFloat, failsIn_getFloat⟩,
    ⟨readOnly_getDouble, bounded_getDouble, failsIn_getDouble⟩,
    ⟨readOnly_getString, bounded_getString, failsIn_getString⟩,
    ⟨readOnly_getMap, bounded_getMap, failsIn_getMap⟩,
    fun maxLen =>
      ⟨readOnly_getArray maxLen, bounded_getArray maxLen, failsIn_getArray maxLen⟩⟩
  · intro d p b h
    have := WriteBytes_err d [b % 256] p (by simp; omega)
    simpa [PutByte] using this
  · intro d p n h
    have := WriteBytes_err d (beBytes 2 n) p (by rw [length_beBytes]; omega)
    simpa [PutShort] using this
  · intro d p n h
    have := WriteBytes_err d (beBytes 4 n) p (by rw [length_beBytes]; omega)
    simpa [PutInt] using this
  · intro d p bits h
    have := WriteBytes_err d (leBytes 4 bits) p (by rw [length_leBytes]; omega)
    simpa [PutFloat] using this
  · intro d p bits h
    have := WriteBytes_err d (leBytes 8 bits) p (by rw [length_leBytes]; omega)
    simpa [PutDouble] using this

open ByteBuffer in
/-- C2 witness: an over-capacity PutByte at a concrete buffer. -/
theorem C2_boundary_witness :
    PutByte 9 ⟨[0], 1⟩ = (Except.error BBError.overflow, ⟨[0], 1⟩) :=
  C2_boundary_behavior.1 [0] 1 9 (by decide)

open ByteBuffer in
/-- C3: every supported primitive value written with its Put operation
into a sufficiently large buffer reads back exactly with the matching
Get operation from the same position: bytes, 16/32/64-bit integers
over their full range (64-bit twos-complement patterns cover negative
values), double bit patterns, byte strings including the empty string,
and string maps including empty keys and values. -/
theorem C3_roundtrip :
    (∀ (d : List Nat) (p b : Nat), b < 256 → p + 1 ≤ d.length →
      (do PutByte b; SetPosition p; GetByte : BBM Nat) ⟨d, p⟩ =
        (Except.ok b, ⟨listWrite d p [b], p + 1⟩)) ∧
    (∀ (d : List Nat) (p n : Nat), n < 2 ^ 16 → p + 2 ≤ d.length →
      (do PutShort n; SetPosition p; GetShort : BBM Nat) ⟨d, p⟩ =
        (Except.ok n, ⟨listWrite d p (beBytes 2 n), p + 2⟩)) ∧
    (∀ (d : List Nat) (p n : Nat), n < 2 ^ 32 → p + 4 ≤ d.length →
      (do PutInt n; SetPosition p; GetInt : BBM Nat) ⟨d, p⟩ =
        (Except.ok n, ⟨listWrite d p (beBytes 4 n), p + 4⟩)) ∧
    (∀ (d : List Nat) (p n : Nat), n < 2 ^ 64 → p + 8 ≤ d.length →
      (do PutLong n; SetPosition p; GetLong : BBM Nat) ⟨d, p⟩ =
        (Except.ok n,
          ⟨listWrite d p (beBytes 4 (n / 2 ^ 32) ++ beBytes 4 n), p + 8⟩)) ∧
    (∀ (d : List Nat) (p bits : Nat), bits < 2 ^ 64 → p + 8 ≤ d.length →
      (do PutDouble bits; SetPosition p; GetDouble : BBM Nat) ⟨d, p⟩ =
        (Except.ok bits, ⟨listWrite d p (leBytes 8 bits), p + 8⟩)) ∧
    (∀ (d str : List Nat) (p : Nat), (∀ b ∈ str, b < 256) →
      str.length < 2 ^ 32 → p + 4 + str.length ≤ d.length →
      (do PutString str; SetPosition p; GetString : BBM (List Nat)) ⟨d, p⟩ =
        (Except.ok str, ⟨listWrite d p (strEncode str), p + 4 + str.length⟩)) ∧
    (∀ (d : List Nat) (m : List (List Nat × List Nat)) (p : Nat), mapWF m →
      m.length < 2 ^ 32 → p + (mapEncode m).length ≤ d.length →
      (do PutMap m; SetPosition p; GetMap : BBM (List (List Nat × List Nat)))
          ⟨d, p⟩ =
        (Except.ok m, ⟨listWrite d p (mapEncode m), p + (mapEncode m).length⟩)) :=
  ⟨roundtrip_byte, roundtrip_short, roundtrip_int, roundtrip_long,
    roundtrip_double, roundtrip_string, roundtrip_map⟩

open ByteBuffer in
/-- C3 witness: concrete round trips for each primitive, including the
64-bit pattern of -1 and a two-entry map payload. -/
theorem C3_roundtrip_witness :
    ((do PutByte 7; SetPosition 0; GetByte : BBM Nat) ⟨[0, 0], 0⟩ =
      (Except.ok 7, ⟨listWrite [0, 0] 0 [7], 0 + 1⟩)) ∧
    ((do PutShort 258; SetPosition 0; GetShort : BBM Nat) ⟨[0, 0], 0⟩ =
      (Except.ok 258, ⟨listWrite [0, 0] 0 (beBytes 2 258), 0 + 2⟩)) ∧
    ((do PutInt 70000; SetPosition 0; GetInt : BBM Nat) ⟨[0, 0, 0, 0], 0⟩ =
      (Except.ok 70000, ⟨listWrite [0, 0, 0, 0] 0 (beBytes 4 70000), 0 + 4⟩)) ∧
    ((do PutLong 18446744073709551615; SetPosition 0; GetLong : BBM Nat)
        ⟨[0, 0, 0, 0, 0, 0, 0, 0], 0⟩ =
      (Except.ok 18446744073709551615,
        ⟨listWrite [0, 0, 0, 0, 0, 0, 0, 0] 0
          (beBytes 4 (18446744073709551615 / 2 ^ 32) ++
            beBytes 4 18446744073709551615), 0 + 8⟩)) ∧
    ((do PutDouble 4611686018427387904; SetPosition 0; GetDouble : BBM Nat)
        ⟨[0, 0, 0, 0, 0, 0, 0, 0], 0⟩ =
      (Except.ok 4611686018427387904,
        ⟨listWrite [0, 0, 0, 0, 0, 0, 0, 0] 0 (leBytes 8 4611686018427387904),
          0 + 8⟩)) ∧
    ((do PutString [104, 105]; SetPosition 0; GetString : BBM (List Nat))
        ⟨List.replicate 10 0, 0⟩ =
      (Except.ok [104, 105],
        ⟨listWrite (List.replicate 10 0) 0 (strEncode [104, 105]), 0 + 4 + 2⟩)) ∧
    ((do PutMap [([107], [118])]
         SetPosition 0
         GetMap : BBM (List (List Nat × List Nat))) ⟨List.replicate 30 0, 0⟩ =
      (Except.ok [([107], [118])],
        ⟨listWrite (List.replicate 30 0) 0 (mapEncode [([107], [118])]),
          0 + (mapEncode [([107], [118])]).length⟩)) :=
  ⟨C3_roundtrip.1 [0, 0] 0 7 (by decide) (by decide),
   C3_roundtrip.2.1 [0, 0] 0 258 (by decide) (by decide),
   C3_roundtrip.2.2.1 [0, 0, 0, 0] 0 70000 (by decide) (by decide),
   C3_roundtrip.2.2.2.1 [0, 0, 0, 0, 0, 0, 0, 0] 0 18446744073709551615
     (by decide) (by decide),
   C3_roundtrip.2.2.2.2.1 [0, 0, 0, 0, 0, 0, 0, 0] 0 4611686018427387904
     (by decide) (by decide),
   C3_roundtrip.2.2.2.2.2.1 (List.replicate 10 0) [104, 105] 0 (by decide)
     (by decide) (by decide),
   C3_roundtrip.2.2.2.2.2.2 (List.replicate 30 0) [([107], [118])] 0
     (by intro kv hkv
         simp only [List.mem_singleton] at hkv
         subst hkv
         exact ⟨by decide, by decide, by decide, by decide⟩)
     (by decide) (by decide)⟩

/-- C4: dispatch returns 0 both when no handler is registered and when
the handler throws, so the two cases are indistinguishable from the
return value; the event trace shows the lookup between lock acquire
and release and Execute strictly after the release. -/
theorem C4_dispatch :
    (∀ (reg : Registry) (routineId : Nat) (input : List Nat),
      regFind reg routineId = none → ExecuteService reg routineId input = 0) ∧
    (∀ (reg : Registry) (routineId : Nat) (input : List Nat) (svc : Service)
      (e : Unit), regFind reg routineId = some svc →
      svc.execute input = Except.error e →
      ExecuteService reg routineId input = 0) ∧
    (∀ (reg : Registry) (routineId : Nat) (input : List Nat),
      (ExecuteServiceT reg routineId input).2 =
        [RegEvent.lockAcquire, RegEvent.lookup, RegEvent.lockRelease] ∨
      (ExecuteServiceT reg routineId input).2 =
        [RegEvent.lockAcquire, RegEvent.lookup, RegEvent.lockRelease,
          RegEvent.execute]) := by
  refine ⟨?_, ?_, ?_⟩
  · intro reg routineId input h
    simp [ExecuteService, ExecuteServiceT, h]
  · intro reg routineId input svc e h he
    simp [ExecuteService, ExecuteServiceT, h, he]
  · intro reg routineId input
    rcases h : regFind reg routineId with _ | svc
    · simp [ExecuteServiceT, h]
    · rcases he : svc.execute input with e | out <;> simp [ExecuteServiceT, h, he]

/-- C4 witness: an empty registry and a throwing handler both yield 0. -/
theorem C4_dispatch_witness :
    ExecuteService [] 5 [] = 0 ∧
    ExecuteService [(5, ⟨5, fun _ => Except.error ()⟩)] 5 [] = 0 ∧
    ((ExecuteServiceT [] 5 []).2 =
        [RegEvent.lockAcquire, RegEvent.lookup, RegEvent.lockRelease] ∨
      (ExecuteServiceT [] 5 []).2 =
        [RegEvent.lockAcquire, RegEvent.lookup, RegEvent.lockRelease,
          RegEvent.execute]) :=
  ⟨C4_dispatch.1 [] 5 [] rfl,
   C4_dispatch.2.1 [(5, ⟨5, fun _ => Except.error ()⟩)] 5 []
     ⟨5, fun _ => Except.error ()⟩ () rfl rfl,
   C4_dispatch.2.2 [] 5 []⟩

/-- C5: registration rejects a null handler and a duplicate routine id,
leaving the registry unchanged (first registration wins), and otherwise
adds the mapping and reports success; the function is total, so no case
raises. -/
theorem C5_register :
    (∀ reg : Registry, RegisterService reg none = (false, reg)) ∧
    (∀ (reg : Registry) (svc old : Service),
      regFind reg svc.requestId = some old →
      RegisterService reg (some svc) = (false, reg)) ∧
    (∀ (reg : Registry) (svc : Service), regFind reg svc.requestId = none →
      RegisterService reg (some svc) = (true, reg ++ [(svc.requestId, svc)]) ∧
      regFind (RegisterService reg (some svc)).2 svc.requestId = some svc) := by
  refine ⟨fun reg => rfl, ?_, ?_⟩
  · intro reg svc old h
    simp [RegisterService, h]
  · intro reg svc h
    have h1 : RegisterService reg (some svc) =
        (true, reg ++ [(svc.requestId, svc)]) := by
      simp [RegisterService, h]
    exact ⟨h1, by rw [h1]; exact regFind_append_self reg _ svc h⟩

/-- C5 witness: a null handler, a duplicate id, and a fresh id. -/
theorem C5_register_witness :
    RegisterService [] none = (false, []) ∧
    RegisterService [(5, ⟨5, fun _ => Except.ok []⟩)]
        (some ⟨5, fun _ => Except.error ()⟩) =
      (false, [(5, ⟨5, fun _ => Except.ok []⟩)]) ∧
    (RegisterService [] (some ⟨5, fun _ => Except.ok []⟩) =
        (true, [] ++ [(5, ⟨5, fun _ => Except.ok []⟩)]) ∧
      regFind (RegisterService [] (some ⟨5, fun _ => Except.ok []⟩)).2 5 =
        some ⟨5, fun _ => Except.ok []⟩) :=
  ⟨C5_register.1 [],
   C5_register.2.1 [(5, ⟨5, fun _ => Except.ok []⟩)]
     ⟨5, fun _ => Except.error ()⟩ ⟨5, fun _ => Except.ok []⟩ rfl,
   C5_register.2.2 [] ⟨5, fun _ => Except.ok []⟩ rfl⟩

/-- C6: the server parser validates minimum size, START and VERSION,
yielding no response on any failure without tearing down the
connection, and on success dispatches the payload starting after the
VERSION byte and excluding the trailing END byte (length = input
length - 10 - 1). -/
theorem C6_frame_parsing :
    (∀ data : List Nat, data.length < Protocol.GetMinFrameSize →
      ProcessClientRequest data = none) ∧
    (∀ (b0 b1 b2 b3 b4 b5 b6 b7 b8 b9 : Nat) (rest : List Nat), rest ≠ [] →
      b0 ≠ Protocol.START_BYTE →
      ProcessClientRequest (b0 :: b1 :: b2 :: b3 :: b4 :: b5 :: b6 :: b7 ::
        b8 :: b9 :: rest) = none) ∧
    (∀ (b0 b1 b2 b3 b4 b5 b6 b7 b8 b9 : Nat) (rest : List Nat), rest ≠ [] →
      b9 ≠ Protocol.VERSION →
      ProcessClientRequest (b0 :: b1 :: b2 :: b3 :: b4 :: b5 :: b6 :: b7 ::
        b8 :: b9 :: rest) = none) ∧
    (∀ (b0 b1 b2 b3 b4 b5 b6 b7 b8 b9 : Nat) (rest : List Nat), rest ≠ [] →
      b0 = Protocol.START_BYTE → b9 = Protocol.VERSION →
      ProcessClientRequest (b0 :: b1 :: b2 :: b3 :: b4 :: b5 :: b6 :: b7 ::
        b8 :: b9 :: rest) =
        some (beDecode [b5, b6, b7, b8], rest.take (rest.length - 1))) ∧
    (∀ data : List Nat, (HandleClientData data).1 = true) := by
  refine ⟨?_, ?_, ?_, ?_, fun data => rfl⟩
  · intro data h
    rw [ProcessClientRequest, if_pos h]
  · intro b0 b1 b2 b3 b4 b5 b6 b7 b8 b9 rest hr hb0
    rw [ProcessClientRequest_eval _ _ _ _ _ _ _ _ _ _ _ hr, if_pos hb0]
  · intro b0 b1 b2 b3 b4 b5 b6 b7 b8 b9 rest hr hb9
    rw [ProcessClientRequest_eval _ _ _ _ _ _ _ _ _ _ _ hr]
    by_cases hb0 : b0 ≠ Protocol.START_BYTE
    · rw [if_pos hb0]
    · rw [if_neg hb0, if_pos hb9]
  · intro b0 b1 b2 b3 b4 b5 b6 b7 b8 b9 rest hr hb0 hb9
    rw [ProcessClientRequest_eval _ _ _ _ _ _ _ _ _ _ _ hr,
      if_neg (by simp [hb0]), if_neg (by simp [hb9])]

/-- C6 witness: an undersized frame, a bad START, a bad VERSION, and a
valid frame whose payload drops the END byte. -/
theorem C6_frame_parsing_witness :
    ProcessClientRequest [1, 2, 3] = none ∧
    ProcessClientRequest
      (0 :: 0 :: 0 :: 0 :: 12 :: 0 :: 0 :: 16 :: 0 :: 1 :: [66, 127]) = none ∧
    ProcessClientRequest
      (126 :: 0 :: 0 :: 0 :: 12 :: 0 :: 0 :: 16 :: 0 :: 9 :: [66, 127]) = none ∧
    ProcessClientRequest
      (126 :: 0 :: 0 :: 0 :: 12 :: 0 :: 0 :: 16 :: 0 :: 1 :: [66, 127]) =
      some (beDecode [0, 0, 16, 0], [66, 127].take ([66, 127].length - 1)) ∧
    (HandleClientData [1, 2, 3]).1 = true :=
  ⟨C6_frame_parsing.1 [1, 2, 3] (by decide),
   C6_frame_parsing.2.1 0 0 0 0 12 0 0 16 0 1 [66, 127] (by decide) (by decide),
   C6_frame_parsing.2.2.1 126 0 0 0 12 0 0 16 0 9 [66, 127] (by decide)
     (by decide),
   C6_frame_parsing.2.2.2.1 126 0 0 0 12 0 0 16 0 1 [66, 127] (by decide)
     (by decide) (by decide),
   C6_frame_parsing.2.2.2.2 [1, 2, 3]⟩

/-- C7: the channel encoder emits exactly one complete frame — START,
patched TOTAL_LENGTH equal to the exact frame byte count, routine id,
VERSION, payload, END — and a payload that cannot fit the 8192-byte
frame buffer aborts the call before any socket interaction without
touching the channel state. -/
theorem C7_frame_encoding :
    (∀ (routineId : Nat) (payload : List Nat),
      payload.length ≤ Protocol.MAX_PACKET_SIZE - 11 →
      ChannelBuildFrame routineId payload =
        some (chanFrame routineId (11 + payload.length) payload) ∧
      (chanFrame routineId (11 + payload.length) payload).length =
        11 + payload.length) ∧
    (∀ (routineId : Nat) (payload : List Nat) (st : ChannelState),
      Protocol.MAX_PACKET_SIZE - 11 < payload.length →
      ChannelBuildFrame routineId payload = none ∧
      ExecuteRPCUpToSend st routineId payload = (false, st, false)) := by
  constructor
  · intro routineId payload h
    exact ⟨ChannelBuildFrame_ok routineId payload h, length_chanFrame _ _ _⟩
  · intro routineId payload st h
    have hn := ChannelBuildFrame_too_large routineId payload h
    refine ⟨hn, ?_⟩
    unfold ExecuteRPCUpToSend
    rw [hn]
    rfl

/-- C7 witness: a three-byte payload frames exactly; an 8182-byte
payload aborts with no frame and no state change. -/
theorem C7_frame_encoding_witness :
    (ChannelBuildFrame 4096 [1, 2, 3] =
        some (chanFrame 4096 (11 + [1, 2, 3].length) [1, 2, 3]) ∧
      (chanFrame 4096 (11 + [1, 2, 3].length) [1, 2, 3]).length =
        11 + [1, 2, 3].length) ∧
    (ChannelBuildFrame 4096 (List.replicate 8182 0) = none ∧
      ExecuteRPCUpToSend ⟨some 3, true⟩ 4096 (List.replicate 8182 0) =
        (false, ⟨some 3, true⟩, false)) :=
  ⟨C7_frame_encoding.1 4096 [1, 2, 3]
     (by norm_num [Protocol.MAX_PACKET_SIZE]),
   C7_frame_encoding.2 4096 (List.replicate 8182 0) ⟨some 3, true⟩
     (by rw [List.length_replicate]; norm_num [Protocol.MAX_PACKET_SIZE])⟩

/-- C8: Disconnect and Stop are idempotent — after one call the channel
is disconnected (socket released) and the server stopped, and a second
call changes nothing and performs no further close or join. -/
theorem C8_shutdown_idempotent :
    (∀ st : ChannelState, ((Disconnect st).1).connected = false ∧
      ((Disconnect st).1).socketFd = none ∧
      Disconnect ((Disconnect st).1) = ((Disconnect st).1, false)) ∧
    (∀ st : ServerRunState, ((Stop st).1).running = false ∧
      Stop ((Stop st).1) = ((Stop st).1, false)) := by
  constructor
  · intro st
    rcases st with ⟨fd, c⟩
    cases fd <;> simp [Disconnect]
  · intro st
    rcases st with ⟨r⟩
    cases r <;> simp [Stop]

/-- C9: dividing 42.0 by 0.0 yields status DivisionByZero (0x01),
result 0.0 and the text Division by zero; the response frame the
service builds into the 8 KiB server buffer carries that status byte at
offset 10, and the client proxy parses it into a failure result with
that error message, which mentions zero. -/
theorem C9_divide_by_zero :
    CalcExecuteOperation 4 42 0 = (statusDivisionByZero, 0, msgDivisionByZero) ∧
    statusDivisionByZero = 0x01 ∧
    (BuildCalcResponse statusDivisionByZero 0 msgDivisionByZero
        Protocol.MAX_PACKET_SIZE).map ParseCalcResponse =
      some ⟨false, 0, msgDivisionByZero⟩ ∧
    (BuildCalcResponse statusDivisionByZero 0 msgDivisionByZero
        Protocol.MAX_PACKET_SIZE).map (fun r => r.get? 10) =
      some (some statusDivisionByZero) ∧
    List.IsInfix zeroBytes msgDivisionByZero := by
  have habs : |(0 : ℚ)| < 1 / 10 ^ 10 := by
    rw [abs_zero]
    norm_num
  refine ⟨?_, rfl, ?_, ?_, ?_⟩
  · show (if |(0 : ℚ)| < 1 / 10 ^ 10 then
        ((statusDivisionByZero : Nat), (0 : ℚ), msgDivisionByZero)
      else ((statusSuccess : Nat), 42 / 0, ([] : List Nat))) = _
    rw [if_pos habs]
  · rw [BuildCalcResponse_ok _ _ _ _ (by decide)]
    simp only [Option.map_some']
    decide
  · rw [BuildCalcResponse_ok _ _ _ _ (by decide)]
    simp only [Option.map_some']
    decide
  · decide

/-- C10: the divide routine answers DivisionByZero with result 0 and
the Division by zero text exactly when the divisor's magnitude is below
the 1e-10 guard — including small nonzero divisors — and divides
otherwise. -/
theorem C10_divide_guard :
    ∀ a b : ℚ,
      (|b| < 1 / 10 ^ 10 →
        CalcExecuteOperation 4 a b =
          (statusDivisionByZero, 0, msgDivisionByZero)) ∧
      (1 / 10 ^ 10 ≤ |b| →
        CalcExecuteOperation 4 a b = (statusSuccess, a / b, [])) := by
  intro a b
  constructor
  · intro h
    show (if |b| < 1 / 10 ^ 10 then
        ((statusDivisionByZero : Nat), (0 : ℚ), msgDivisionByZero)
      else ((statusSuccess : Nat), a / b, ([] : List Nat))) = _
    rw [if_pos h]
  · intro h
    show (if |b| < 1 / 10 ^ 10 then
        ((statusDivisionByZero : Nat), (0 : ℚ), msgDivisionByZero)
      else ((statusSuccess : Nat), a / b, ([] : List Nat))) = _
    rw [if_neg (not_lt.mpr h)]

/-- C10 witness: the guard fires at the nonzero divisor 1e-11 and does
not fire at 1. -/
theorem C10_divide_guard_witness :
    CalcExecuteOperation 4 42 (1 / 10 ^ 11) =
      (statusDivisionByZero, 0, msgDivisionByZero) ∧
    CalcExecuteOperation 4 42 1 = (statusSuccess, 42 / 1, []) :=
  ⟨(C10_divide_guard 42 (1 / 10 ^ 11)).1 (by rw [abs_of_pos (by norm_num)]; norm_num),
   (C10_divide_guard 42 1).2 (by rw [abs_of_pos (by norm_num)]; norm_num)⟩

end IpcUds
